import Mathlib

/-
Verification of the ParallelCBS MAPF solver (C sources) against its design
specification.  The C data structures and functions are shallowly embedded:
C `int` values become `Int`, `size_t` arithmetic is modelled explicitly with
`% 2^64`, dynamic arrays become `List`s, and the C `double` cost field (which
in this program only ever holds small integer sums copied verbatim) is
modelled as `Rat`.  Each embedded definition keeps the name of the C function
it translates.
-/

namespace ParallelCBS

/-! ## Core data model (include/common.h, include/grid.h) -/

/-- GridCoord from include/common.h: an integer 2D cell. -/
@[ext]
structure GridCoord where
  x : Int
  y : Int
deriving Repr, DecidableEq

/-- Grid from include/grid.h: width, height and row-major occupancy bytes
(0 = free, nonzero = obstacle). -/
structure Grid where
  width : Int
  height : Int
  cells : List Nat
deriving Repr, DecidableEq

/-- grid_in_bounds from include/grid.h. -/
def grid_in_bounds (g : Grid) (x y : Int) : Bool :=
  x ≥ 0 && y ≥ 0 && x < g.width && y < g.height

/-- grid_is_obstacle from include/grid.h: out of bounds counts as obstacle,
otherwise the occupancy byte at `y*width + x` is tested against 0. -/
def grid_is_obstacle (g : Grid) (x y : Int) : Bool :=
  if ¬ grid_in_bounds g x y then true
  else (g.cells.getD (y * g.width + x).toNat 0) ≠ 0

/-- An AgentPath (include/common.h) is its sequence of steps; the C struct's
`length` field is the list length. -/
abbrev AgentPath := List GridCoord

/-- path_step_at from include/common.h: position at a time index with the
wait-at-goal read extension; an empty path yields the default cell (0,0).
The C `time_index` is an `int` but every caller passes a loop counter `≥ 0`,
so it is modelled as `Nat`. -/
def path_step_at (path : AgentPath) (time_index : Nat) : GridCoord :=
  if path.length = 0 then ⟨0, 0⟩
  else if time_index < path.length then path.getD time_index ⟨0, 0⟩
  else path.getD (path.length - 1) ⟨0, 0⟩

/-- get_step_with_wait from src/cbs.c (the conflict detector's private copy);
the C guard is `path->length <= 0` rather than `== 0`, which coincide for a
list length. -/
def get_step_with_wait (path : AgentPath) (time_index : Nat) : GridCoord :=
  if path.length ≤ 0 then ⟨0, 0⟩
  else if time_index < path.length then path.getD time_index ⟨0, 0⟩
  else path.getD (path.length - 1) ⟨0, 0⟩

/-! ## Constraints (include/constraints.h, src/constraints.c) -/

/-- ConstraintType from include/constraints.h; serialized on the wire as
0 (Vertex) and 1 (Edge). -/
inductive ConstraintType where
  | vertex
  | edge
deriving Repr, DecidableEq

/-- The integer discriminant written by the codecs ((int)c->type). -/
def ConstraintType.toInt : ConstraintType → Int
  | .vertex => 0
  | .edge => 1

/-- The cast (ConstraintType)v performed by the codecs; only 0 and 1 ever
appear on the wire, any other value is mapped to `edge`. -/
def ConstraintType.ofInt (v : Int) : ConstraintType :=
  if v = 0 then .vertex else .edge

/-- Constraint from include/constraints.h. -/
structure Constraint where
  agent_id : Int
  time : Int
  type : ConstraintType
  vertex : GridCoord
  edge_to : GridCoord
deriving Repr, DecidableEq

/-- A ConstraintSet is its `items` array in insertion order (constraint_set_add
appends at the end). -/
abbrev ConstraintSet := List Constraint

/-! ## High-level nodes (include/cbs.h) -/

/-- HighLevelNode from include/cbs.h.  The C struct's `num_agents` field always
equals the length of its `paths` array (cbs_node_create allocates exactly
`num_agents` paths), so it is represented by `paths.length`.  `cost` is a C
double holding a sum of path lengths; it is modelled as `Rat`. -/
structure HighLevelNode where
  id : Int
  parent_id : Int
  depth : Int
  cost : Rat
  constraints : ConstraintSet
  paths : List AgentPath
deriving Repr, DecidableEq

/-- cbs_compute_soc from src/cbs.c: the sum of all path lengths. -/
def cbs_compute_soc (node : HighLevelNode) : Rat :=
  node.paths.foldl (fun acc p => acc + (p.length : Rat)) 0

/-- Conflict from include/cbs.h.  The agent indices and the time are loop
counters in the detector, hence `Nat`.  For a vertex conflict the C code
leaves `edge_to` uninitialized (no consumer reads it in that case); the model
stores `pa_next` there. -/
structure Conflict where
  agent_a : Nat
  agent_b : Nat
  time : Nat
  position : GridCoord
  is_vertex_conflict : Bool
  edge_to : GridCoord
deriving Repr, DecidableEq

/-! ## Low-level neighbor generation (src/parallel_a_star.c) -/

/-- AStarNode from include/parallel_a_star.h. -/
structure AStarNode where
  position : GridCoord
  g_cost : Int
  f_cost : Int
  parent_index : Int
  time : Int
deriving Repr, DecidableEq

/-- violates_constraint from src/parallel_a_star.c: a linear scan over the
constraint set; constraints whose `agent_id` is ≥ 0 and differs from the
querying agent are skipped. -/
def violates_constraint (set : ConstraintSet) (agent_id : Int)
    (time_from time_to : Int) (fromPos toPos : GridCoord) : Bool :=
  set.any fun c =>
    if c.agent_id ≥ 0 && c.agent_id ≠ agent_id then false
    else
      (c.type = ConstraintType.vertex && c.time = time_to &&
         c.vertex.x = toPos.x && c.vertex.y = toPos.y) ||
      (c.type = ConstraintType.edge && c.time = time_from &&
         c.vertex.x = fromPos.x && c.vertex.y = fromPos.y &&
         c.edge_to.x = toPos.x && c.edge_to.y = toPos.y)

/-- The five candidate moves of generate_neighbors, in source order:
wait, +x, −x, +y, −y. -/
def neighborMoves : List GridCoord :=
  [⟨0, 0⟩, ⟨1, 0⟩, ⟨-1, 0⟩, ⟨0, 1⟩, ⟨0, -1⟩]

/-- generate_neighbors from src/parallel_a_star.c.  The C function fills three
parallel output arrays (position, g, time); the model returns the list of
triples in production order. -/
def generate_neighbors (grid : Grid) (constraints : ConstraintSet)
    (agent_id : Int) (node : AStarNode) : List (GridCoord × Int × Int) :=
  neighborMoves.foldr
    (fun m acc =>
      if ¬ grid_in_bounds grid (node.position.x + m.x) (node.position.y + m.y) then
        acc
      else if (m.x ≠ 0 || m.y ≠ 0) &&
          grid_is_obstacle grid (node.position.x + m.x) (node.position.y + m.y) then
        acc
      else if violates_constraint constraints agent_id node.time (node.time + 1)
          node.position ⟨node.position.x + m.x, node.position.y + m.y⟩ then
        acc
      else (⟨node.position.x + m.x, node.position.y + m.y⟩, node.g_cost + 1,
        node.time + 1) :: acc)
    []

/-- The admissibility condition of §4.1 of the spec, written out move by move:
destination in bounds, destination not an obstacle unless the move is wait,
and no applicable vertex constraint at `t+1` at the destination nor edge
constraint at `t` for the transition, where a constraint applies to the agent
iff its `agent_id` equals the agent's id or is negative. -/
def admissibleMove (grid : Grid) (constraints : ConstraintSet) (agent_id : Int)
    (node : AStarNode) (m : GridCoord) : Prop :=
  let next : GridCoord := ⟨node.position.x + m.x, node.position.y + m.y⟩
  grid_in_bounds grid next.x next.y = true ∧
  ((m.x = 0 ∧ m.y = 0) ∨ grid_is_obstacle grid next.x next.y = false) ∧
  ¬ (∃ c ∈ constraints, (c.agent_id = agent_id ∨ c.agent_id < 0) ∧
        c.type = ConstraintType.vertex ∧ c.time = node.time + 1 ∧
        c.vertex = next) ∧
  ¬ (∃ c ∈ constraints, (c.agent_id = agent_id ∨ c.agent_id < 0) ∧
        c.type = ConstraintType.edge ∧ c.time = node.time ∧
        c.vertex = node.position ∧ c.edge_to = next)

instance (grid : Grid) (constraints : ConstraintSet) (agent_id : Int)
    (node : AStarNode) (m : GridCoord) :
    Decidable (admissibleMove grid constraints agent_id node m) := by
  unfold admissibleMove
  exact inferInstance

/-! ## CBS split constraints (src/worker.c, src/main_serial.c,
src/main_decentralized.c; the three copies are identical) -/

/-- make_vertex_constraint: forbid `agent_id` from the conflict position at the
conflict time. -/
def make_vertex_constraint (conflict : Conflict) (agent_id : Int) : Constraint :=
  { agent_id := agent_id
    time := (conflict.time : Int)
    type := ConstraintType.vertex
    vertex := conflict.position
    edge_to := conflict.position }

/-- make_edge_constraint: for agent_a the conflict's own transition; when the
agent is conflict.agent_b the transition is re-read from that agent's own path
with the wait-at-goal extension. -/
def make_edge_constraint (node : HighLevelNode) (conflict : Conflict)
    (agent_id : Int) : Constraint :=
  let base : Constraint :=
    { agent_id := agent_id
      time := (conflict.time : Int)
      type := ConstraintType.edge
      vertex := conflict.position
      edge_to := conflict.edge_to }
  if agent_id = (conflict.agent_b : Int) then
    { base with
        vertex := path_step_at (node.paths.getD conflict.agent_b []) conflict.time
        edge_to := path_step_at (node.paths.getD conflict.agent_b []) (conflict.time + 1) }
  else base

/-! ## Coordinator incumbent handling (src/coordinator.c, run_coordinator,
TAG_SOLUTION branch) -/

/-- The part of the coordinator state touched by the TAG_SOLUTION branch of
run_coordinator. -/
structure CoordinatorState where
  incumbent_solution : Option HighLevelNode
  incumbent_cost : Rat
  next_node_id : Int
deriving Repr, DecidableEq

/-- The TAG_SOLUTION branch of run_coordinator (src/coordinator.c): the
received node gets a fresh id and a recomputed cost and then replaces the
incumbent unconditionally; no comparison with the current incumbent cost is
performed. -/
def coordinator_on_solution (st : CoordinatorState) (solution_node : HighLevelNode) :
    CoordinatorState :=
  let updated : HighLevelNode :=
    { solution_node with
        id := st.next_node_id
        cost := cbs_compute_soc solution_node }
  { incumbent_solution := some updated
    incumbent_cost := updated.cost
    next_node_id := st.next_node_id + 1 }

/-! ## Supporting lemmas -/

/-- Unfolding of the constraint scan: the Boolean result of
violates_constraint holds exactly when the set contains an applicable vertex
constraint on the arrival, or an applicable edge constraint on the
transition. -/
theorem violates_constraint_iff (set : ConstraintSet) (agent_id : Int)
    (time_from time_to : Int) (fromPos toPos : GridCoord) :
    violates_constraint set agent_id time_from time_to fromPos toPos = true ↔
      (∃ c ∈ set, (c.agent_id = agent_id ∨ c.agent_id < 0) ∧
          c.type = ConstraintType.vertex ∧ c.time = time_to ∧ c.vertex = toPos) ∨
      (∃ c ∈ set, (c.agent_id = agent_id ∨ c.agent_id < 0) ∧
          c.type = ConstraintType.edge ∧ c.time = time_from ∧
          c.vertex = fromPos ∧ c.edge_to = toPos) := by
  simp only [violates_constraint, List.any_eq_true]
  constructor
  · rintro ⟨c, hc, h⟩
    by_cases hskip : c.agent_id ≥ 0 ∧ c.agent_id ≠ agent_id
    · simp [hskip.1, hskip.2] at h
    · have happ : c.agent_id = agent_id ∨ c.agent_id < 0 := by
        rcases lt_or_ge c.agent_id 0 with hlt | hge
        · exact Or.inr hlt
        · left
          by_contra hne
          exact hskip ⟨hge, hne⟩
      rw [if_neg (by simpa using hskip)] at h
      simp only [Bool.or_eq_true, Bool.and_eq_true, decide_eq_true_eq] at h
      rcases h with ⟨⟨⟨ht, htime⟩, hx⟩, hy⟩ | ⟨⟨⟨⟨⟨ht, htime⟩, hvx⟩, hvy⟩, hex⟩, hey⟩
      · exact Or.inl ⟨c, hc, happ, ht, htime, by ext <;> assumption⟩
      · exact Or.inr ⟨c, hc, happ, ht, htime, by ext <;> assumption,
          by ext <;> assumption⟩
  · rintro (⟨c, hc, happ, ht, htime, hv⟩ | ⟨c, hc, happ, ht, htime, hv, he⟩) <;>
      refine ⟨c, hc, ?_⟩ <;>
      · have hskip : ¬ (c.agent_id ≥ 0 ∧ c.agent_id ≠ agent_id) := by
          rcases happ with heq | hlt
          · exact fun h => h.2 heq
          · exact fun h => absurd h.1 (not_le.mpr hlt)
        rw [if_neg (by simpa using hskip)]
        subst hv
        simp [ht, htime]
        try simp [he]

/-! ## Claim C10 — wait-at-goal position query is total -/

/-- C10: the wait-at-goal position query is total: path_step_at (and the
detector's get_step_with_wait, which computes the same function) returns
steps[t] when t < length, steps[length−1] when t ≥ length > 0, and the
default cell (0,0) when the path is empty, so an empty path reads as an agent
sitting at (0,0) rather than an error. -/
theorem path_step_at_total (path : AgentPath) (t : Nat) :
    get_step_with_wait path t = path_step_at path t ∧
    (path.length = 0 → path_step_at path t = ⟨0, 0⟩) ∧
    (∀ h : t < path.length, path_step_at path t = path.get ⟨t, h⟩) ∧
    (path.length ≤ t → ∀ h : path ≠ [], path_step_at path t = path.getLast h) := by
  refine ⟨?_, ?_, ?_, ?_⟩
  · simp [get_step_with_wait, path_step_at]
  · intro h
    simp [path_step_at, h]
  · intro h
    have hne : path.length ≠ 0 := by omega
    simp [path_step_at, hne, h, List.getD_eq_getElem?_getD, List.getElem?_eq_getElem h]
  · intro hle h
    have hpos : 0 < path.length := List.length_pos.mpr h
    have hne : path.length ≠ 0 := by omega
    have hnlt : ¬ t < path.length := by omega
    have hlast : path.length - 1 < path.length := by omega
    simp only [path_step_at, if_neg hne, if_neg hnlt]
    rw [List.getD_eq_getElem?_getD, List.getElem?_eq_getElem hlast,
      List.getLast_eq_getElem]
    rfl

/-- Witness for C10 at a concrete path and time index. -/
theorem path_step_at_total_witness :
    path_step_at [(⟨1, 2⟩ : GridCoord), ⟨3, 4⟩] 7 = ⟨3, 4⟩ := by
  have h := (path_step_at_total [(⟨1, 2⟩ : GridCoord), ⟨3, 4⟩] 7).2.2.2
    (by decide) (by decide)
  simpa using h

/-! ## Claim C4 — neighbor generation -/

/-- C4: generate_neighbors produces exactly the moves among
{wait, +x, −x, +y, −y} whose destination is in bounds, whose destination is
not an obstacle unless the move is wait, and which violate neither a vertex
constraint at time t+1 at the destination nor an edge constraint at time t
for the transition, where a constraint applies to the agent iff its agent_id
equals the agent's id or is negative; every produced neighbor carries
g_cost + 1 and time + 1. -/
theorem generate_neighbors_spec (grid : Grid) (constraints : ConstraintSet)
    (agent_id : Int) (node : AStarNode) :
    generate_neighbors grid constraints agent_id node =
      (neighborMoves.filter
          (fun m => decide (admissibleMove grid constraints agent_id node m))).map
        (fun m => (⟨node.position.x + m.x, node.position.y + m.y⟩,
                   node.g_cost + 1, node.time + 1)) := by
  have hobs_iff : ∀ m : GridCoord,
      (((m.x ≠ 0 || m.y ≠ 0) &&
          grid_is_obstacle grid (node.position.x + m.x) (node.position.y + m.y)) = false)
      ↔ ((m.x = 0 ∧ m.y = 0) ∨
          grid_is_obstacle grid (node.position.x + m.x) (node.position.y + m.y) = false) := by
    intro m
    by_cases hx : m.x = 0 <;> by_cases hy : m.y = 0 <;>
      by_cases hob : grid_is_obstacle grid (node.position.x + m.x)
        (node.position.y + m.y) = true <;>
      simp_all
  have hkeep : ∀ m : GridCoord,
      (grid_in_bounds grid (node.position.x + m.x) (node.position.y + m.y) = true ∧
       ((m.x = 0 ∧ m.y = 0) ∨
         grid_is_obstacle grid (node.position.x + m.x) (node.position.y + m.y) = false) ∧
       violates_constraint constraints agent_id node.time (node.time + 1)
           node.position ⟨node.position.x + m.x, node.position.y + m.y⟩ = false)
      ↔ admissibleMove grid constraints agent_id node m := by
    intro m
    unfold admissibleMove
    constructor
    · rintro ⟨hb, hobs, hviol⟩
      refine ⟨hb, hobs, ?_, ?_⟩
      · intro hex
        have := (violates_constraint_iff constraints agent_id node.time
          (node.time + 1) node.position ⟨node.position.x + m.x, node.position.y + m.y⟩).mpr
          (Or.inl hex)
        rw [hviol] at this
        exact Bool.false_ne_true this
      · intro hex
        have := (violates_constraint_iff constraints agent_id node.time
          (node.time + 1) node.position ⟨node.position.x + m.x, node.position.y + m.y⟩).mpr
          (Or.inr hex)
        rw [hviol] at this
        exact Bool.false_ne_true this
    · rintro ⟨hb, hobs, hnv, hne⟩
      refine ⟨hb, hobs, ?_⟩
      rw [← Bool.not_eq_true]
      intro hv
      rcases (violates_constraint_iff constraints agent_id node.time
        (node.time + 1) node.position ⟨node.position.x + m.x, node.position.y + m.y⟩).mp hv with
        h | h
      · exact hnv h
      · exact hne h
  unfold generate_neighbors
  generalize neighborMoves = ms
  induction ms with
  | nil => rfl
  | cons m rest ih =>
    simp only [List.foldr_cons, List.filter_cons, ih]
    by_cases hadm : admissibleMove grid constraints agent_id node m
    · have hthis := (hkeep m).mpr hadm
      rw [if_neg (by simp [hthis.1]),
        if_neg (by rw [Bool.not_eq_true]; exact (hobs_iff m).mpr hthis.2.1),
        if_neg (by simp [hthis.2.2])]
      simp [hadm]
    · have hcond := fun a b c => hadm ((hkeep m).mp ⟨a, b, c⟩)
      by_cases hb : grid_in_bounds grid (node.position.x + m.x) (node.position.y + m.y) = true
      · by_cases hobs : ((m.x ≠ 0 || m.y ≠ 0) &&
            grid_is_obstacle grid (node.position.x + m.x) (node.position.y + m.y)) = true
        · rw [if_neg (by simpa using hb), if_pos (by simpa using hobs)]
          simp [hadm]
        · have hv : violates_constraint constraints agent_id node.time (node.time + 1)
              node.position ⟨node.position.x + m.x, node.position.y + m.y⟩ = true := by
            by_contra hnv
            exact hcond hb ((hobs_iff m).mp (by simpa using hobs))
              (by simpa using hnv)
          rw [if_neg (by simpa using hb), if_neg (by simpa using hobs),
            if_pos (by simpa using hv)]
          simp [hadm]
      · rw [if_pos (by simpa using hb)]
        simp [hadm]

/-- Witness for C4: on a 2×2 free grid with a vertex constraint on (1,0) at
time 1, the generator at the origin at time 0 keeps wait, +y and the
destination (1,0) is filtered out. -/
theorem generate_neighbors_spec_witness :
    generate_neighbors ⟨2, 2, [0, 0, 0, 0]⟩
        [⟨0, 1, ConstraintType.vertex, ⟨1, 0⟩, ⟨1, 0⟩⟩] 0
        ⟨⟨0, 0⟩, 0, 0, -1, 0⟩ =
      [(⟨0, 0⟩, 1, 1), (⟨0, 1⟩, 1, 1)] := by
  rw [generate_neighbors_spec ⟨2, 2, [0, 0, 0, 0]⟩
    [⟨0, 1, ConstraintType.vertex, ⟨1, 0⟩, ⟨1, 0⟩⟩] 0 ⟨⟨0, 0⟩, 0, 0, -1, 0⟩]
  decide

/-! ## Claim C8 — split constraints -/

/-- C8: the split constraint built for an agent α of a conflict is, for a
vertex conflict, {α, time, Vertex, position, position}; for an edge conflict
when α is not agent_b (i.e. α is agent_a), {α, time, Edge, position, edge_to};
and for an edge conflict when α is agent_b, the mirrored transition
{α, time, Edge, path_α(time), path_α(time+1)} read from α's own path with the
wait-at-goal extension. -/
theorem split_constraint_spec (node : HighLevelNode) (conflict : Conflict)
    (agent_id : Int) :
    make_vertex_constraint conflict agent_id =
      ⟨agent_id, (conflict.time : Int), ConstraintType.vertex,
        conflict.position, conflict.position⟩ ∧
    (agent_id ≠ (conflict.agent_b : Int) →
      make_edge_constraint node conflict agent_id =
        ⟨agent_id, (conflict.time : Int), ConstraintType.edge,
          conflict.position, conflict.edge_to⟩) ∧
    (agent_id = (conflict.agent_b : Int) →
      make_edge_constraint node conflict agent_id =
        ⟨agent_id, (conflict.time : Int), ConstraintType.edge,
          path_step_at (node.paths.getD conflict.agent_b []) conflict.time,
          path_step_at (node.paths.getD conflict.agent_b []) (conflict.time + 1)⟩) := by
  refine ⟨rfl, ?_, ?_⟩
  · intro h
    simp [make_edge_constraint, h]
  · intro h
    simp [make_edge_constraint, h]

/-- Witness for C8 at a concrete conflict: agent 1 is agent_b of an edge
conflict at time 0; its mirrored constraint is read from its own path. -/
theorem split_constraint_spec_witness :
    make_edge_constraint
        ⟨0, -1, 0, 4, [], [[⟨0, 0⟩, ⟨1, 0⟩], [⟨1, 0⟩, ⟨0, 0⟩]]⟩
        ⟨0, 1, 0, ⟨0, 0⟩, false, ⟨1, 0⟩⟩ 1 =
      ⟨1, 0, ConstraintType.edge, ⟨1, 0⟩, ⟨0, 0⟩⟩ := by
  have h := (split_constraint_spec
    ⟨0, -1, 0, 4, [], [[⟨0, 0⟩, ⟨1, 0⟩], [⟨1, 0⟩, ⟨0, 0⟩]]⟩
    ⟨0, 1, 0, ⟨0, 0⟩, false, ⟨1, 0⟩⟩ 1).2.2 (by decide)
  rw [h]
  decide

/-! ## Claim C2 — coordinator incumbent handling -/

/-- Counterexample for C2: a TAG_SOLUTION received while an incumbent of cost
5 exists, carrying a solution of recomputed cost 7 ≥ 5, nevertheless changes
the stored incumbent cost (the code performs no comparison). -/
theorem coordinator_on_solution_counterexample :
    (cbs_compute_soc ⟨-1, 0, 1, 0, [], [List.replicate 7 ⟨0, 0⟩]⟩ ≥
        (⟨some ⟨7, -1, 0, 5, [], [List.replicate 5 ⟨0, 0⟩]⟩, 5, 9⟩ :
          CoordinatorState).incumbent_cost) ∧
    (⟨some ⟨7, -1, 0, 5, [], [List.replicate 5 ⟨0, 0⟩]⟩, 5, 9⟩ :
        CoordinatorState).incumbent_solution ≠ none ∧
    (coordinator_on_solution
        ⟨some ⟨7, -1, 0, 5, [], [List.replicate 5 ⟨0, 0⟩]⟩, 5, 9⟩
        ⟨-1, 0, 1, 0, [], [List.replicate 7 ⟨0, 0⟩]⟩).incumbent_cost ≠
      (⟨some ⟨7, -1, 0, 5, [], [List.replicate 5 ⟨0, 0⟩]⟩, 5, 9⟩ :
        CoordinatorState).incumbent_cost := by
  refine ⟨by norm_num [cbs_compute_soc], by simp, ?_⟩
  norm_num [coordinator_on_solution, cbs_compute_soc]

/-- C2 (amended): the coordinator's TAG_SOLUTION branch replaces the incumbent
unconditionally — the received node, re-identified and with recomputed cost,
becomes the incumbent and its cost the incumbent cost, with no comparison
against the previous incumbent cost. -/
theorem coordinator_on_solution_amended (st : CoordinatorState)
    (sol : HighLevelNode) :
    (coordinator_on_solution st sol).incumbent_solution =
      some { sol with id := st.next_node_id, cost := cbs_compute_soc sol } ∧
    (coordinator_on_solution st sol).incumbent_cost = cbs_compute_soc sol ∧
    (coordinator_on_solution st sol).next_node_id = st.next_node_id + 1 :=
  ⟨rfl, rfl, rfl⟩

/-! ## Node codec (include/serialization.h, src/serialization.c) -/

/-- SerializedNode from include/serialization.h.  The C NULL payload pointers
are modelled as empty lists (serialize only allocates a payload when its int
count is positive, so NULL and a nonempty buffer are never conflated on
codec output). -/
structure SerializedNode where
  node_id : Int
  parent_id : Int
  depth : Int
  num_agents : Int
  constraint_count : Int
  path_int_count : Int
  constraint_int_count : Int
  aux_value : Int
  cost : Rat
  path_data : List Int
  constraint_data : List Int
deriving Repr, DecidableEq

/-- The per-agent block written by fill_path_data:
`[len, x_0, y_0, …, x_{len−1}, y_{len−1}]`. -/
def encodePathBlock (p : AgentPath) : List Int :=
  (p.length : Int) :: (p.map fun c => [c.x, c.y]).flatten

/-- The 7-int block written for one constraint by serialize_high_level_node. -/
def encodeConstraintBlock (c : Constraint) : List Int :=
  [c.agent_id, c.time, c.type.toInt, c.vertex.x, c.vertex.y, c.edge_to.x, c.edge_to.y]

/-- compute_path_int_count from src/serialization.c. -/
def compute_path_int_count (node : HighLevelNode) : Int :=
  node.paths.foldl (fun acc p => acc + (1 + 2 * (p.length : Int))) 0

/-- serialize_high_level_node from src/serialization.c. -/
def serialize_high_level_node (node : HighLevelNode) : SerializedNode :=
  let pic := compute_path_int_count node
  { node_id := node.id
    parent_id := node.parent_id
    depth := node.depth
    num_agents := (node.paths.length : Int)
    constraint_count := (node.constraints.length : Int)
    path_int_count := pic
    constraint_int_count := (node.constraints.length : Int) * 7
    aux_value := 0
    cost := node.cost
    path_data := if pic > 0 then (node.paths.map encodePathBlock).flatten else []
    constraint_data :=
      if (node.constraints.length : Int) * 7 > 0 then
        (node.constraints.map encodeConstraintBlock).flatten
      else [] }

/-- The inner coordinate-reading loop of apply_path_data: read `n` (x, y)
pairs and return them with the unread rest of the buffer.  The source indexes
the buffer blindly; a buffer that runs dry (impossible for codec output) ends
the parse. -/
def parseSteps : Nat → List Int → (AgentPath × List Int)
  | 0, buf => ([], buf)
  | n + 1, x :: y :: rest =>
      let (ps, r) := parseSteps n rest
      (⟨x, y⟩ :: ps, r)
  | _ + 1, buf => ([], buf)

/-- apply_path_data from src/serialization.c: for each of the `k` agents read
a length prefix and then that many coordinate pairs.  A buffer that runs dry
(impossible for codec output) leaves the remaining paths empty, as
cbs_node_create created them. -/
def parsePaths : Nat → List Int → List AgentPath
  | 0, _ => []
  | k + 1, [] => List.replicate (k + 1) []
  | k + 1, len :: rest =>
      let (p, r) := parseSteps len.toNat rest
      p :: parsePaths k r

/-- The constraint-reading loop of deserialize_high_level_node: `k` blocks of
7 ints each.  A buffer that runs dry (impossible for codec output) ends the
parse. -/
def parseConstraints : Nat → List Int → List Constraint
  | 0, _ => []
  | k + 1, a :: t :: ty :: vx :: vy :: ex :: ey :: rest =>
      ⟨a, t, ConstraintType.ofInt ty, ⟨vx, vy⟩, ⟨ex, ey⟩⟩ :: parseConstraints k rest
  | _ + 1, _ => []

/-- deserialize_high_level_node from src/serialization.c: cbs_node_create
makes `num_agents` empty paths and an empty constraint set, then the payloads
are applied when present. -/
def deserialize_high_level_node (data : SerializedNode) : HighLevelNode :=
  { id := data.node_id
    parent_id := data.parent_id
    depth := data.depth
    cost := data.cost
    paths :=
      if data.path_int_count > 0 ∧ data.path_data ≠ [] then
        parsePaths data.num_agents.toNat data.path_data
      else List.replicate data.num_agents.toNat []
    constraints :=
      if data.constraint_int_count > 0 ∧ data.constraint_data ≠ [] then
        parseConstraints data.constraint_count.toNat data.constraint_data
      else [] }

/-- Reading back one encoded coordinate block recovers the path and leaves the
rest of the buffer untouched. -/
theorem parseSteps_encode (p : AgentPath) (rest : List Int) :
    parseSteps p.length ((p.map fun c => [c.x, c.y]).flatten ++ rest) = (p, rest) := by
  induction p with
  | nil => rfl
  | cons c ps ih =>
      simp only [List.map_cons, List.flatten_cons, List.length_cons,
        List.cons_append, List.append_assoc]
      simp [parseSteps, ih]

/-- Reading back the concatenated path blocks recovers all paths. -/
theorem parsePaths_encode (paths : List AgentPath) :
    parsePaths paths.length (paths.map encodePathBlock).flatten = paths := by
  induction paths with
  | nil => rfl
  | cons p ps ih =>
      have h := parseSteps_encode p ((ps.map encodePathBlock).flatten)
      simp only [List.map_cons, List.flatten_cons, encodePathBlock,
        List.length_cons, List.cons_append, parsePaths, Int.toNat_natCast,
        List.append_eq]
      rw [h]
      simp [ih]

/-- Reading back the concatenated constraint blocks recovers all
constraints. -/
theorem parseConstraints_encode (cs : List Constraint) :
    parseConstraints cs.length (cs.map encodeConstraintBlock).flatten = cs := by
  induction cs with
  | nil => rfl
  | cons c rest ih =>
      cases c with
      | mk a t ty v e =>
          cases ty <;>
            simp [encodeConstraintBlock, parseConstraints, ConstraintType.ofInt,
              ConstraintType.toInt, ih]

/-- The path payload of a node with at least one agent is a positive number
of ints. -/
theorem compute_path_int_count_pos (node : HighLevelNode) (h : node.paths ≠ []) :
    compute_path_int_count node > 0 := by
  unfold compute_path_int_count
  have hgen : ∀ (l : List AgentPath) (acc : Int), acc ≤
      l.foldl (fun acc p => acc + (1 + 2 * (p.length : Int))) acc := by
    intro l
    induction l with
    | nil => intro acc; exact le_refl acc
    | cons p ps ih =>
        intro acc
        refine le_trans ?_ (ih (acc + (1 + 2 * (p.length : Int))))
        omega
  obtain ⟨p, ps, hp⟩ := List.exists_cons_of_ne_nil h
  rw [hp]
  simp only [List.foldl_cons]
  refine lt_of_lt_of_le ?_ (hgen ps (0 + (1 + 2 * (p.length : Int))))
  omega

/-! ## Claim C6 — serialization round-trip -/

/-- C6: serialization round-trip: for every CT node (any number of agents,
any path lengths, any constraint list), deserializing its serialization
yields a node equal in every field — parent_id, depth, number of agents,
cost, every path and every constraint in order — and even in id (the id is
merely reassigned later, on admission, so the claim's exception is mute
here). -/
theorem serialize_round_trip (node : HighLevelNode) :
    deserialize_high_level_node (serialize_high_level_node node) = node := by
  obtain ⟨nid, npar, ndep, ncost, ncons, npaths⟩ := node
  unfold serialize_high_level_node deserialize_high_level_node
  dsimp only
  by_cases hp : npaths = []
  · subst hp
    by_cases hc : ncons = []
    · subst hc; rfl
    · have hcpos : ((ncons.length : Int)) * 7 > 0 := by
        have h0 : 0 < ncons.length := List.length_pos.mpr hc
        omega
      have hcne : (ncons.map encodeConstraintBlock).flatten ≠ [] := by
        obtain ⟨c, cs, rfl⟩ := List.exists_cons_of_ne_nil hc
        simp [encodeConstraintBlock]
      have hcons := parseConstraints_encode ncons
      simp [compute_path_int_count, hcpos, hcne, hcons]
  · have hppos : compute_path_int_count ⟨nid, npar, ndep, ncost, ncons, npaths⟩ > 0 :=
      compute_path_int_count_pos _ hp
    have hpne : (npaths.map encodePathBlock).flatten ≠ [] := by
      obtain ⟨p, ps, rfl⟩ := List.exists_cons_of_ne_nil hp
      simp [encodePathBlock]
    have hpaths := parsePaths_encode npaths
    by_cases hc : ncons = []
    · subst hc
      simp [hppos, hpne, hpaths]
    · have hcpos : ((ncons.length : Int)) * 7 > 0 := by
        have h0 : 0 < ncons.length := List.length_pos.mpr hc
        omega
      have hcne : (ncons.map encodeConstraintBlock).flatten ≠ [] := by
        obtain ⟨c, cs, rfl⟩ := List.exists_cons_of_ne_nil hc
        simp [encodeConstraintBlock]
      have hcons := parseConstraints_encode ncons
      simp [hppos, hpne, hpaths, hcpos, hcne, hcons]

/-! ## Conflict detection (src/cbs.c) -/

/-- The first loop of cbs_detect_conflict: the longest path length over all
agents. -/
def maxPathLength (paths : List AgentPath) : Nat :=
  paths.foldl (fun m p => max m p.length) 0

/-- The body of the detector's scan at time `t` for the pair `(a, b)`:
the vertex test comes first, then the swap (edge) test; the C code leaves
`edge_to` uninitialized in the vertex case, modelled here as `pa_next`. -/
def conflictPair (paths : List AgentPath) (t a b : Nat) : Option Conflict :=
  let pa_curr := get_step_with_wait (paths.getD a []) t
  let pa_next := get_step_with_wait (paths.getD a []) (t + 1)
  let pb_curr := get_step_with_wait (paths.getD b []) t
  let pb_next := get_step_with_wait (paths.getD b []) (t + 1)
  if pa_curr = pb_curr then
    some ⟨a, b, t, pa_curr, true, pa_next⟩
  else if pa_curr = pb_next ∧ pb_curr = pa_next then
    some ⟨a, b, t, pa_curr, false, pa_next⟩
  else none

/-- cbs_detect_conflict from src/cbs.c: scan times `t` from 0 below the
longest path length, and for each `t` the agent pairs `(a, b)` with `a < b`
in lexicographic order, returning the first conflict found. -/
def cbs_detect_conflict (paths : List AgentPath) : Option Conflict :=
  (List.range (maxPathLength paths)).findSome? fun t =>
    (List.range paths.length).findSome? fun a =>
      (List.range paths.length).findSome? fun b =>
        if a < b then conflictPair paths t a b else none

/-- A vertex conflict of the joint plan at time t between agents a and b,
positions read with the wait-at-goal extension. -/
def vertexConflictAt (paths : List AgentPath) (t a b : Nat) : Prop :=
  get_step_with_wait (paths.getD a []) t = get_step_with_wait (paths.getD b []) t

/-- An edge (swap) conflict of the joint plan over the step t → t+1 between
agents a and b. -/
def edgeConflictAt (paths : List AgentPath) (t a b : Nat) : Prop :=
  get_step_with_wait (paths.getD a []) t = get_step_with_wait (paths.getD b []) (t + 1) ∧
  get_step_with_wait (paths.getD b []) t = get_step_with_wait (paths.getD a []) (t + 1)

/-- Any conflict (vertex or edge) at time t between a and b. -/
def pairConflictAt (paths : List AgentPath) (t a b : Nat) : Prop :=
  vertexConflictAt paths t a b ∨ edgeConflictAt paths t a b

/-- The joint plan is collision-free under the wait-at-goal extension: no
vertex or edge conflict between any agent pair at any time. -/
def collisionFree (paths : List AgentPath) : Prop :=
  ∀ t a b, a < b → b < paths.length → ¬ pairConflictAt paths t a b

/-- First-hit characterization of a scan over `List.range`. -/
theorem findSome?_range_eq_some {α : Type} :
    ∀ (n : Nat) (f : Nat → Option α) (c : α),
      (List.range n).findSome? f = some c ↔
        ∃ i, i < n ∧ f i = some c ∧ ∀ j < i, f j = none := by
  intro n
  induction n with
  | zero => simp
  | succ m ih =>
      intro f c
      rw [List.range_succ_eq_map]
      cases hf0 : f 0 with
      | some b =>
          rw [List.findSome?_cons, hf0]
          dsimp only
          constructor
          · intro h
            exact ⟨0, Nat.succ_pos m, by rw [hf0]; exact h, by omega⟩
          · rintro ⟨i, hin, hfi, hmin⟩
            cases i with
            | zero => rw [hf0] at hfi; exact hfi
            | succ j =>
                have := hmin 0 (Nat.succ_pos j)
                rw [hf0] at this
                exact absurd this (Option.some_ne_none b)
      | none =>
          rw [List.findSome?_cons, hf0]
          dsimp only
          rw [List.findSome?_map, ih (f ∘ Nat.succ) c]
          constructor
          · rintro ⟨i, hin, hfi, hmin⟩
            refine ⟨i + 1, by omega, hfi, ?_⟩
            intro j hj
            cases j with
            | zero => exact hf0
            | succ k => exact hmin k (by omega)
          · rintro ⟨i, hin, hfi, hmin⟩
            cases i with
            | zero => rw [hf0] at hfi; exact absurd hfi (Option.noConfusion)
            | succ k =>
                exact ⟨k, by omega, hfi, fun j hj => hmin (j + 1) (by omega)⟩

/-- The detector's per-pair test is silent exactly when the pair has neither
a vertex nor an edge conflict at that time. -/
theorem conflictPair_eq_none (paths : List AgentPath) (t a b : Nat) :
    conflictPair paths t a b = none ↔ ¬ pairConflictAt paths t a b := by
  unfold conflictPair pairConflictAt vertexConflictAt edgeConflictAt
  dsimp only
  split
  · simp_all
  · split
    · simp_all
    · simp_all

/-- Inversion of a positive per-pair test: the returned record's fields and
the vertex-over-edge preference. -/
theorem conflictPair_eq_some (paths : List AgentPath) (t a b : Nat)
    (c : Conflict) (h : conflictPair paths t a b = some c) :
    c.agent_a = a ∧ c.agent_b = b ∧ c.time = t ∧
    pairConflictAt paths t a b ∧
    (c.is_vertex_conflict = true ↔ vertexConflictAt paths t a b) ∧
    c.position = get_step_with_wait (paths.getD a []) t := by
  unfold conflictPair at h
  dsimp only at h
  split at h
  · cases h
    refine ⟨rfl, rfl, rfl, Or.inl (by assumption), ?_, rfl⟩
    simp only [true_iff]
    assumption
  · split at h
    · cases h
      refine ⟨rfl, rfl, rfl, Or.inr (by constructor <;> tauto), ?_, rfl⟩
      constructor
      · intro hfalse
        exact absurd hfalse (Bool.false_ne_true)
      · intro hv
        exact absurd hv (by assumption)
    · exact absurd h (Option.noConfusion)

/-- A positional read with default is a member of the list when the index is
in range. -/
theorem getD_mem_of_lt (l : List AgentPath) (i : Nat) (h : i < l.length) :
    l.getD i [] ∈ l := by
  rw [List.getD_eq_getElem?_getD, List.getElem?_eq_getElem h]
  simp [List.getElem_mem h]

/-- Every path of the node is no longer than the longest path length. -/
theorem maxPathLength_ge (paths : List AgentPath) (p : AgentPath)
    (hp : p ∈ paths) : p.length ≤ maxPathLength paths := by
  unfold maxPathLength
  have hgen : ∀ (l : List AgentPath) (init : Nat),
      (init ≤ l.foldl (fun m q => max m q.length) init) ∧
      (∀ q ∈ l, q.length ≤ l.foldl (fun m q => max m q.length) init) := by
    intro l
    induction l with
    | nil => intro init; exact ⟨le_refl _, by simp⟩
    | cons q qs ih =>
        intro init
        refine ⟨?_, ?_⟩
        · exact le_trans (le_max_left init q.length) (ih (max init q.length)).1
        · intro r hr
          rcases List.mem_cons.mp hr with hrq | hrqs
          · subst hrq
            exact le_trans (le_max_right init r.length) (ih (max init r.length)).1
          · exact (ih (max init q.length)).2 r hrqs
  exact (hgen paths 0).2 p hp

/-- The wait-at-goal read is frozen from arrival onwards: any two sufficiently
late time indices give the same position. -/
theorem get_step_with_wait_frozen (p : AgentPath) (t t' : Nat)
    (ht : p.length - 1 ≤ t) (ht' : p.length - 1 ≤ t') :
    get_step_with_wait p t = get_step_with_wait p t' := by
  unfold get_step_with_wait
  by_cases h0 : p.length = 0
  · simp [h0]
  · have h1 : ¬ p.length ≤ 0 := by omega
    rw [if_neg h1, if_neg h1]
    by_cases hlt : t < p.length
    · have he : t = p.length - 1 := by omega
      by_cases hlt' : t' < p.length
      · have he' : t' = p.length - 1 := by omega
        rw [he, he']
      · rw [if_pos hlt, if_neg hlt', he]
    · by_cases hlt' : t' < p.length
      · have he' : t' = p.length - 1 := by omega
        rw [if_neg hlt, if_pos hlt', he']
      · rw [if_neg hlt, if_neg hlt']

/-- A conflict at or beyond the scan horizon collapses to a vertex conflict at
the last scanned time. -/
theorem pairConflictAt_late (paths : List AgentPath) (t a b : Nat)
    (ha : a < paths.length) (hb : b < paths.length)
    (hlen : 1 ≤ maxPathLength paths) (ht : maxPathLength paths - 1 ≤ t)
    (h : pairConflictAt paths t a b) :
    pairConflictAt paths (maxPathLength paths - 1) a b := by
  set t0 := maxPathLength paths - 1 with ht0
  have hfa : ∀ s s' : Nat, t0 ≤ s → t0 ≤ s' →
      get_step_with_wait (paths.getD a []) s = get_step_with_wait (paths.getD a []) s' := by
    intro s s' hs hs'
    have hma : (paths.getD a []).length ≤ maxPathLength paths :=
      maxPathLength_ge paths _ (getD_mem_of_lt paths a ha)
    exact get_step_with_wait_frozen _ s s' (by omega) (by omega)
  have hfb : ∀ s s' : Nat, t0 ≤ s → t0 ≤ s' →
      get_step_with_wait (paths.getD b []) s = get_step_with_wait (paths.getD b []) s' := by
    intro s s' hs hs'
    have hmb : (paths.getD b []).length ≤ maxPathLength paths :=
      maxPathLength_ge paths _ (getD_mem_of_lt paths b hb)
    exact get_step_with_wait_frozen _ s s' (by omega) (by omega)
  rcases h with hv | ⟨he1, he2⟩
  · left
    calc get_step_with_wait (paths.getD a []) t0
        = get_step_with_wait (paths.getD a []) t := hfa t0 t le_rfl ht
      _ = get_step_with_wait (paths.getD b []) t := hv
      _ = get_step_with_wait (paths.getD b []) t0 := hfb t t0 ht le_rfl
  · left
    calc get_step_with_wait (paths.getD a []) t0
        = get_step_with_wait (paths.getD a []) t := hfa t0 t le_rfl ht
      _ = get_step_with_wait (paths.getD b []) (t + 1) := he1
      _ = get_step_with_wait (paths.getD b []) t0 := hfb (t + 1) t0 (by omega) le_rfl

/-! ## Claim C3 — conflict detector -/

/-- Counterexample for C3 as stated over every CT node: in the degenerate
node whose paths are all empty the detector scans no time step and reports no
conflict, yet under the wait-at-goal extension (empty path ↦ cell (0,0),
claim C10) both agents occupy (0,0) at every time, a vertex conflict. -/
theorem detect_conflict_counterexample :
    cbs_detect_conflict [[], []] = none ∧ ¬ collisionFree [[], []] := by
  refine ⟨rfl, fun h => ?_⟩
  exact h 0 0 1 Nat.zero_lt_one (by norm_num) (Or.inl rfl)

/-- C3 (amended): for every CT node in which some agent path is nonempty (or
with at most one agent), detect_conflict returns no conflict iff the joint
plan is collision-free (no vertex or edge conflict at any time) under the
wait-at-goal extension; and a returned conflict is the deterministic one: it
has the minimum conflict time, among those the lexicographically smallest
agent pair (a, b) with a < b, with a vertex conflict reported in preference
to an edge conflict, and its position is agent a's position at that time. -/
theorem detect_conflict_spec (paths : List AgentPath)
    (H : paths.length ≤ 1 ∨ ∃ p ∈ paths, p ≠ []) :
    (cbs_detect_conflict paths = none ↔ collisionFree paths) ∧
    (∀ c, cbs_detect_conflict paths = some c →
      c.agent_a < c.agent_b ∧ c.agent_b < paths.length ∧
      pairConflictAt paths c.time c.agent_a c.agent_b ∧
      (∀ t < c.time, ∀ a b, a < b → b < paths.length →
        ¬ pairConflictAt paths t a b) ∧
      (∀ a b, a < b → b < paths.length →
        (a < c.agent_a ∨ (a = c.agent_a ∧ b < c.agent_b)) →
        ¬ pairConflictAt paths c.time a b) ∧
      (c.is_vertex_conflict = true ↔
        vertexConflictAt paths c.time c.agent_a c.agent_b) ∧
      c.position = get_step_with_wait (paths.getD c.agent_a []) c.time) := by
  constructor
  · constructor
    · intro hnone
      unfold cbs_detect_conflict at hnone
      rw [List.findSome?_eq_none_iff] at hnone
      have hscan : ∀ t, t < maxPathLength paths → ∀ a b, a < b →
          b < paths.length → conflictPair paths t a b = none := by
        intro t ht a b hab hbn
        have h1 := hnone t (List.mem_range.mpr ht)
        rw [List.findSome?_eq_none_iff] at h1
        have h2 := h1 a (List.mem_range.mpr (lt_trans hab hbn))
        rw [List.findSome?_eq_none_iff] at h2
        have h3 := h2 b (List.mem_range.mpr hbn)
        rwa [if_pos hab] at h3
      intro t a b hab hbn
      by_cases htm : t < maxPathLength paths
      · exact (conflictPair_eq_none paths t a b).mp (hscan t htm a b hab hbn)
      · intro hconf
        have hn2 : 2 ≤ paths.length := by omega
        have hlen : 1 ≤ maxPathLength paths := by
          rcases H with h1 | ⟨p, hp, hpne⟩
          · omega
          · have := maxPathLength_ge paths p hp
            have hl : 1 ≤ p.length := List.length_pos.mpr hpne
            omega
        have hlate := pairConflictAt_late paths t a b (lt_trans hab hbn) hbn hlen
          (by omega) hconf
        have h0 := hscan (maxPathLength paths - 1) (by omega) a b hab hbn
        exact (conflictPair_eq_none paths _ a b).mp h0 hlate
    · intro hcf
      unfold cbs_detect_conflict
      rw [List.findSome?_eq_none_iff]
      intro t _
      rw [List.findSome?_eq_none_iff]
      intro a _
      rw [List.findSome?_eq_none_iff]
      intro b hb
      by_cases hab : a < b
      · rw [if_pos hab]
        exact (conflictPair_eq_none paths t a b).mpr
          (hcf t a b hab (List.mem_range.mp hb))
      · rw [if_neg hab]
  · intro c hc
    unfold cbs_detect_conflict at hc
    rw [findSome?_range_eq_some] at hc
    obtain ⟨t, htm, hta, htmin⟩ := hc
    rw [findSome?_range_eq_some] at hta
    obtain ⟨a, han, haeq, hamin⟩ := hta
    rw [findSome?_range_eq_some] at haeq
    obtain ⟨b, hbn, hbeq, hbmin⟩ := haeq
    by_cases hab : a < b
    · rw [if_pos hab] at hbeq
      obtain ⟨hca, hcb, hct, hpair, hvert, hpos⟩ :=
        conflictPair_eq_some paths t a b c hbeq
      subst hca
      subst hcb
      subst hct
      refine ⟨hab, hbn, hpair, ?_, ?_, hvert, hpos⟩
      · intro t' ht' a' b' hab' hb'n
        have h1 := htmin t' ht'
        rw [List.findSome?_eq_none_iff] at h1
        have h2 := h1 a' (List.mem_range.mpr (lt_trans hab' hb'n))
        rw [List.findSome?_eq_none_iff] at h2
        have h3 := h2 b' (List.mem_range.mpr hb'n)
        rw [if_pos hab'] at h3
        exact (conflictPair_eq_none paths t' a' b').mp h3
      · intro a' b' hab' hb'n hlex
        rcases hlex with hlt | ⟨heq, hblt⟩
        · have h1 := hamin a' hlt
          rw [List.findSome?_eq_none_iff] at h1
          have h2 := h1 b' (List.mem_range.mpr hb'n)
          rw [if_pos hab'] at h2
          exact (conflictPair_eq_none paths c.time a' b').mp h2
        · subst heq
          have h2 := hbmin b' hblt
          rw [if_pos hab'] at h2
          exact (conflictPair_eq_none paths c.time _ b').mp h2
    · rw [if_neg hab] at hbeq
      exact absurd hbeq (Option.noConfusion)

/-- Witness for C3 at a concrete node: two agents swapping across an edge;
the detector reports a conflict. -/
theorem detect_conflict_spec_witness :
    cbs_detect_conflict [[(⟨0, 0⟩ : GridCoord), ⟨1, 0⟩], [⟨1, 0⟩, ⟨0, 0⟩]] ≠ none := by
  have h := (detect_conflict_spec [[(⟨0, 0⟩ : GridCoord), ⟨1, 0⟩], [⟨1, 0⟩, ⟨0, 0⟩]]
    (Or.inr ⟨[⟨0, 0⟩, ⟨1, 0⟩], by simp, by simp⟩)).1
  intro hnone
  exact (h.mp hnone) 0 0 1 Nat.zero_lt_one (by norm_num) (Or.inr ⟨rfl, rfl⟩)

/-! ## Instance loading (src/grid.c, src/instance_io.c)

Files are modelled as their character contents, with `none` for a file that
cannot be opened.  Allocation always succeeds in the model (the spec declares
allocation failure fatal and out of scope). -/

/-- The C `isspace` classification (default locale), also used by fscanf's
whitespace skipping. -/
def isWhitespaceChar (c : Char) : Bool :=
  c = ' ' || c = '\t' || c = '\n' || c = '\r' || c = '\x0b' || c = '\x0c'

/-- Leading-whitespace skipping performed by fscanf's %d conversion. -/
def skipWhitespace : List Char → List Char
  | [] => []
  | c :: rest => if isWhitespaceChar c then skipWhitespace rest else c :: rest

/-- The longest leading digit run and the rest of the input. -/
def takeDigits : List Char → (List Char × List Char)
  | [] => ([], [])
  | c :: rest =>
      if c.isDigit then
        let (ds, r) := takeDigits rest
        (c :: ds, r)
      else ([], c :: rest)

/-- Decimal value of a digit run. -/
def digitsToNat (ds : List Char) : Nat :=
  ds.foldl (fun acc c => acc * 10 + (c.toNat - '0'.toNat)) 0

/-- fscanf's %d conversion: skip whitespace, then an optional sign and at
least one digit; `none` on matching failure or end of input.  (Overflow of
the C int is undefined behaviour and not modelled; values are unbounded.) -/
def scanInt (cs : List Char) : Option (Int × List Char) :=
  match skipWhitespace cs with
  | [] => none
  | c :: rest =>
      if c = '-' then
        match takeDigits rest with
        | ([], _) => none
        | (ds, r) => some (-(digitsToNat ds : Int), r)
      else if c = '+' then
        match takeDigits rest with
        | ([], _) => none
        | (ds, r) => some ((digitsToNat ds : Int), r)
      else
        match takeDigits (c :: rest) with
        | ([], _) => none
        | (ds, r) => some ((digitsToNat ds : Int), r)

/-- The C cast (size_t)v of an int, 64-bit size_t. -/
def sizeT (v : Int) : Nat := (v % (2 : Int) ^ 64).toNat

/-- The cell-reading loop of grid_load_from_file: one character at a time,
whitespace skipped, '0' and '1' accepted, anything else (or end of file
before enough cells) is a parse error. -/
def readCells : List Char → Nat → Option (List Nat)
  | _, 0 => some []
  | [], _ + 1 => none
  | c :: rest, n + 1 =>
      if isWhitespaceChar c then readCells rest (n + 1)
      else if c = '0' then (readCells rest n).map (fun cells => 0 :: cells)
      else if c = '1' then (readCells rest n).map (fun cells => 1 :: cells)
      else none

/-- grid_load_from_file from src/grid.c: read `W H`, then `W·H` cells
(the cell count is computed in size_t arithmetic, as in the source). -/
def grid_load_from_file (file : Option (List Char)) : Option Grid :=
  match file with
  | none => none
  | some cs =>
      match scanInt cs with
      | none => none
      | some (w, cs1) =>
          match scanInt cs1 with
          | none => none
          | some (h, cs2) =>
              match readCells cs2 ((sizeT w * sizeT h) % 2 ^ 64) with
              | none => none
              | some cells => some ⟨w, h, cells⟩

/-- ProblemInstance from include/cbs.h; `num_agents` is the length of the
starts (equals the length of the goals). -/
structure ProblemInstance where
  map : Grid
  starts : List GridCoord
  goals : List GridCoord
deriving Repr, DecidableEq

/-- The agent-reading loop of load_problem_instance: `n` quadruples
`sx sy gx gy`. -/
def readAgentQuads : List Char → Nat → Option (List (GridCoord × GridCoord))
  | _, 0 => some []
  | cs, n + 1 =>
      match scanInt cs with
      | none => none
      | some (sx, cs1) =>
          match scanInt cs1 with
          | none => none
          | some (sy, cs2) =>
              match scanInt cs2 with
              | none => none
              | some (gx, cs3) =>
                  match scanInt cs3 with
                  | none => none
                  | some (gy, cs4) =>
                      (readAgentQuads cs4 n).map
                        (fun rest => (⟨sx, sy⟩, ⟨gx, gy⟩) :: rest)

/-- load_problem_instance from src/instance_io.c: load the map, then the
agent count N (rejected unless 1 ≤ N ≤ MAX_AGENTS = 40), then N start/goal
quadruples. -/
def load_problem_instance (mapFile agentsFile : Option (List Char)) :
    Option ProblemInstance :=
  match grid_load_from_file mapFile with
  | none => none
  | some g =>
      match agentsFile with
      | none => none
      | some cs =>
          match scanInt cs with
          | none => none
          | some (n, cs1) =>
              if n ≤ 0 ∨ n > 40 then none
              else
                match readAgentQuads cs1 n.toNat with
                | none => none
                | some quads =>
                    some ⟨g, quads.map Prod.fst, quads.map Prod.snd⟩

/-- Reading `k` integers in sequence with %d, keeping only the rest of the
input; used to state "at least k integers follow". -/
def scanInts : Nat → List Char → Option (List Char)
  | 0, cs => some cs
  | k + 1, cs =>
      match scanInt cs with
      | none => none
      | some (_, rest) => scanInts k rest

/-- Modelled from the spec (§6 Map file, §7 Input error): the map-side error
conditions of claim C9 — the file is missing, the `W H` header cannot be
read, the file ends before W·H cells, or a non-whitespace cell character
other than '0' or '1' appears among the cells read. -/
def mapFileError (file : Option (List Char)) : Prop :=
  match file with
  | none => True
  | some cs =>
      match scanInt cs with
      | none => True
      | some (w, cs1) =>
          match scanInt cs1 with
          | none => True
          | some (h, cs2) =>
              let cellCount := (sizeT w * sizeT h) % 2 ^ 64
              let sig := cs2.filter fun c => ¬ isWhitespaceChar c
              sig.length < cellCount ∨
              ∃ ch ∈ sig.take cellCount, ch ≠ '0' ∧ ch ≠ '1'

/-- Modelled from the spec (§6 Agents file, §7 Input error): the agents-side
error conditions of claim C9 — the file is missing, the leading integer N
cannot be read, N is outside [1, 40], or fewer than N coordinate quadruples
(4·N integers) follow. -/
def agentsFileError (file : Option (List Char)) : Prop :=
  match file with
  | none => True
  | some cs =>
      match scanInt cs with
      | none => True
      | some (n, cs1) =>
          n < 1 ∨ n > 40 ∨ scanInts (4 * n.toNat) cs1 = none

/-- The cell loop fails exactly when the input holds fewer than the required
number of non-whitespace characters, or one of the first that many
non-whitespace characters is neither '0' nor '1'. -/
theorem readCells_eq_none_iff (cs : List Char) (k : Nat) :
    readCells cs k = none ↔
      ((cs.filter fun c => ¬ isWhitespaceChar c).length < k ∨
       ∃ ch ∈ (cs.filter fun c => ¬ isWhitespaceChar c).take k,
         ch ≠ '0' ∧ ch ≠ '1') := by
  induction cs generalizing k with
  | nil =>
      cases k with
      | zero => simp [readCells]
      | succ m => simp [readCells]
  | cons c rest ih =>
      cases k with
      | zero => simp [readCells]
      | succ m =>
          by_cases hws : isWhitespaceChar c
          · rw [show readCells (c :: rest) (m + 1) = readCells rest (m + 1) by
              simp [readCells, hws]]
            rw [ih (m + 1)]
            simp [List.filter_cons, hws]
          · by_cases h0 : c = '0'
            · subst h0
              rw [show readCells ('0' :: rest) (m + 1) =
                  (readCells rest m).map (fun cells => 0 :: cells) by
                simp [readCells, hws]]
              rw [Option.map_eq_none', ih m]
              simp [List.filter_cons, hws]
            · by_cases h1 : c = '1'
              · subst h1
                rw [show readCells ('1' :: rest) (m + 1) =
                    (readCells rest m).map (fun cells => 1 :: cells) by
                  simp [readCells, hws, h0]]
                rw [Option.map_eq_none', ih m]
                simp [List.filter_cons, hws]
              · have hfil : (c :: rest).filter (fun c => ¬ isWhitespaceChar c) =
                    c :: rest.filter (fun c => ¬ isWhitespaceChar c) := by
                  simp [List.filter_cons, hws]
                rw [show readCells (c :: rest) (m + 1) = none by
                  simp [readCells, hws, h0, h1]]
                rw [hfil]
                simp only [List.take_succ_cons]
                constructor
                · intro _
                  exact Or.inr ⟨c, List.mem_cons_self c _, h0, h1⟩
                · intro _
                  trivial

/-- One step of the sequential integer reader. -/
theorem scanInts_succ (k : Nat) (cs : List Char) :
    scanInts (k + 1) cs =
      match scanInt cs with
      | none => none
      | some p => scanInts k p.2 := by
  cases h : scanInt cs with
  | none => simp [scanInts, h]
  | some p =>
      obtain ⟨v, r⟩ := p
      simp [scanInts, h]

/-- The quadruple loop fails exactly when fewer than 4·n integers follow. -/
theorem readAgentQuads_eq_none_iff (cs : List Char) (n : Nat) :
    readAgentQuads cs n = none ↔ scanInts (4 * n) cs = none := by
  induction n generalizing cs with
  | zero => simp [readAgentQuads, scanInts]
  | succ m ih =>
      rw [show 4 * (m + 1) = 4 * m + 1 + 1 + 1 + 1 by ring]
      rw [scanInts_succ (4 * m + 1 + 1 + 1) cs]
      unfold readAgentQuads
      cases h1 : scanInt cs with
      | none => simp
      | some p1 =>
          obtain ⟨v1, r1⟩ := p1
          dsimp only
          rw [scanInts_succ (4 * m + 1 + 1) r1]
          cases h2 : scanInt r1 with
          | none => simp
          | some p2 =>
              obtain ⟨v2, r2⟩ := p2
              dsimp only
              rw [scanInts_succ (4 * m + 1) r2]
              cases h3 : scanInt r2 with
              | none => simp
              | some p3 =>
                  obtain ⟨v3, r3⟩ := p3
                  dsimp only
                  rw [scanInts_succ (4 * m) r3]
                  cases h4 : scanInt r3 with
                  | none => simp
                  | some p4 =>
                      obtain ⟨v4, r4⟩ := p4
                      dsimp only
                      rw [Option.map_eq_none']
                      exact ih r4

/-- A successful quadruple read yields exactly n pairs. -/
theorem readAgentQuads_length (cs : List Char) (n : Nat)
    (quads : List (GridCoord × GridCoord))
    (h : readAgentQuads cs n = some quads) : quads.length = n := by
  induction n generalizing cs quads with
  | zero =>
      unfold readAgentQuads at h
      cases h
      rfl
  | succ m ih =>
      unfold readAgentQuads at h
      cases h1 : scanInt cs with
      | none => rw [h1] at h; exact absurd h (Option.noConfusion)
      | some p1 =>
          obtain ⟨v1, r1⟩ := p1
          rw [h1] at h
          dsimp only at h
          cases h2 : scanInt r1 with
          | none => rw [h2] at h; exact absurd h (Option.noConfusion)
          | some p2 =>
              obtain ⟨v2, r2⟩ := p2
              rw [h2] at h
              dsimp only at h
              cases h3 : scanInt r2 with
              | none => rw [h3] at h; exact absurd h (Option.noConfusion)
              | some p3 =>
                  obtain ⟨v3, r3⟩ := p3
                  rw [h3] at h
                  dsimp only at h
                  cases h4 : scanInt r3 with
                  | none => rw [h4] at h; exact absurd h (Option.noConfusion)
                  | some p4 =>
                      obtain ⟨v4, r4⟩ := p4
                      rw [h4] at h
                      dsimp only at h
                      cases hrest : readAgentQuads r4 m with
                      | none => rw [hrest] at h; exact absurd h (Option.noConfusion)
                      | some qs =>
                          rw [hrest] at h
                          cases h
                          simp [ih r4 qs hrest]

/-- The map loader fails exactly on the claimed map-side error conditions. -/
theorem grid_load_from_file_eq_none_iff (mapFile : Option (List Char)) :
    grid_load_from_file mapFile = none ↔ mapFileError mapFile := by
  unfold grid_load_from_file mapFileError
  cases mapFile with
  | none => simp
  | some cs =>
      dsimp only
      cases hw : scanInt cs with
      | none => simp [hw]
      | some pw =>
          obtain ⟨w, cs1⟩ := pw
          dsimp only
          cases hh : scanInt cs1 with
          | none => simp [hh]
          | some ph =>
              obtain ⟨h, cs2⟩ := ph
              dsimp only
              cases hcells : readCells cs2 ((sizeT w * sizeT h) % 2 ^ 64) with
              | none =>
                  constructor
                  · intro _
                    exact (readCells_eq_none_iff cs2 _).mp hcells
                  · intro _
                    rfl
              | some cells =>
                  constructor
                  · intro hco
                    exact absurd hco (Option.noConfusion)
                  · intro herr
                    have hnone := (readCells_eq_none_iff cs2 _).mpr herr
                    rw [hcells] at hnone
                    exact absurd hnone (Option.noConfusion)

/-! ## Claim C9 — instance loading error conditions -/

/-- C9: load_problem_instance produces no instance exactly when the map file
is missing, its W H header cannot be read, it ends before W·H cells, or a
non-whitespace cell character other than '0' or '1' appears; or the agents
file is missing, its leading integer N cannot be read, N is outside [1, 40],
or fewer than N coordinate quadruples follow.  Otherwise it returns the
instance filled with the parsed grid and the N start/goal pairs. -/
theorem load_problem_instance_spec (mapFile agentsFile : Option (List Char)) :
    (load_problem_instance mapFile agentsFile = none ↔
      mapFileError mapFile ∨ agentsFileError agentsFile) ∧
    (∀ inst, load_problem_instance mapFile agentsFile = some inst →
      grid_load_from_file mapFile = some inst.map ∧
      ∃ cs n cs1 quads, agentsFile = some cs ∧ scanInt cs = some (n, cs1) ∧
        1 ≤ n ∧ n ≤ 40 ∧ readAgentQuads cs1 n.toNat = some quads ∧
        inst.starts = quads.map Prod.fst ∧ inst.goals = quads.map Prod.snd ∧
        inst.starts.length = n.toNat ∧ inst.goals.length = n.toNat) := by
  constructor
  · unfold load_problem_instance
    cases hg : grid_load_from_file mapFile with
    | none =>
        constructor
        · intro _
          exact Or.inl ((grid_load_from_file_eq_none_iff mapFile).mp hg)
        · intro _
          rfl
    | some g =>
        have hmapok : ¬ mapFileError mapFile := by
          intro herr
          have := (grid_load_from_file_eq_none_iff mapFile).mpr herr
          rw [hg] at this
          exact absurd this (Option.noConfusion)
        unfold agentsFileError
        cases agentsFile with
        | none => simp
        | some cs =>
            dsimp only
            cases hn : scanInt cs with
            | none => simp
            | some pn =>
                obtain ⟨n, cs1⟩ := pn
                dsimp only
                by_cases hrange : n ≤ 0 ∨ n > 40
                · rw [if_pos hrange]
                  constructor
                  · intro _
                    exact Or.inr (by omega)
                  · intro _
                    rfl
                · rw [if_neg hrange]
                  cases hq : readAgentQuads cs1 n.toNat with
                  | none =>
                      constructor
                      · intro _
                        exact Or.inr (Or.inr (Or.inr
                          ((readAgentQuads_eq_none_iff cs1 n.toNat).mp hq)))
                      · intro _
                        rfl
                  | some quads =>
                      constructor
                      · intro hco
                        exact absurd hco (Option.noConfusion)
                      · rintro (herr | herr)
                        · exact absurd herr hmapok
                        · rcases herr with h1 | h2 | h3
                          · omega
                          · omega
                          · have := (readAgentQuads_eq_none_iff cs1 n.toNat).mpr h3
                            rw [hq] at this
                            exact absurd this (Option.noConfusion)
  · intro inst hinst
    unfold load_problem_instance at hinst
    cases hg : grid_load_from_file mapFile with
    | none =>
        rw [hg] at hinst
        exact absurd hinst (Option.noConfusion)
    | some g =>
        rw [hg] at hinst
        cases agentsFile with
        | none => exact absurd hinst (Option.noConfusion)
        | some cs =>
            dsimp only at hinst
            cases hn : scanInt cs with
            | none =>
                rw [hn] at hinst
                exact absurd hinst (Option.noConfusion)
            | some pn =>
                obtain ⟨n, cs1⟩ := pn
                rw [hn] at hinst
                dsimp only at hinst
                by_cases hrange : n ≤ 0 ∨ n > 40
                · rw [if_pos hrange] at hinst
                  exact absurd hinst (Option.noConfusion)
                · rw [if_neg hrange] at hinst
                  cases hq : readAgentQuads cs1 n.toNat with
                  | none =>
                      rw [hq] at hinst
                      exact absurd hinst (Option.noConfusion)
                  | some quads =>
                      rw [hq] at hinst
                      cases hinst
                      have hlen := readAgentQuads_length cs1 n.toNat quads hq
                      exact ⟨by simp [hg], cs, n, cs1, quads, rfl, hn,
                        by omega, by omega, hq, rfl, rfl,
                        by simp [hlen], by simp [hlen]⟩

/-- Witness for C9: a 2×1 all-free map and one agent from (0,0) to (1,0)
load successfully into the expected instance. -/
theorem load_problem_instance_spec_witness :
    grid_load_from_file (some "2 1\n0 0\n".toList) =
      some (⟨⟨2, 1, [0, 0]⟩, [⟨0, 0⟩], [⟨1, 0⟩]⟩ : ProblemInstance).map := by
  have h := (load_problem_instance_spec (some "2 1\n0 0\n".toList)
    (some "1\n0 0 1 0\n".toList)).2
    ⟨⟨2, 1, [0, 0]⟩, [⟨0, 0⟩], [⟨1, 0⟩]⟩ (by decide)
  exact h.1

/-! ## Priority queue (include/priority_queue.h, src/priority_queue.c)

The C queue stores (double key, void* value) pairs; the A* solver stores
arena indices in the value, so the value type is Nat here, and the
integer-valued double keys are Rat. -/

/-- PQEntry from include/priority_queue.h. -/
structure PQEntry where
  key : Rat
  value : Nat
deriving Repr, DecidableEq

/-- The entry a stray out-of-range C array read would see; never produced on
the reachable index ranges. -/
def defaultEntry : PQEntry := ⟨0, 0⟩

/-- pq_swap, as two positional writes. -/
def pqSwap (items : List PQEntry) (i j : Nat) : List PQEntry :=
  (items.set i (items.getD j defaultEntry)).set j (items.getD i defaultEntry)

/-- The sift-up loop of pq_push, driven by fuel.  The index strictly
decreases at each iteration, so fuel equal to the starting index is never
exhausted. -/
def pqSiftUpFuel : Nat → List PQEntry → Nat → List PQEntry
  | 0, items, _ => items
  | fuel + 1, items, idx =>
      if idx = 0 then items
      else
        let parent := (idx - 1) / 2
        if (items.getD parent defaultEntry).key ≤
            (items.getD idx defaultEntry).key then
          items
        else pqSiftUpFuel fuel (pqSwap items parent idx) parent

/-- The sift-up loop of pq_push. -/
def pqSiftUp (items : List PQEntry) (idx : Nat) : List PQEntry :=
  pqSiftUpFuel (idx + 1) items idx

/-- PriorityQueue from include/priority_queue.h; `count` is the length of
`items`. -/
structure PriorityQueue where
  items : List PQEntry
deriving Repr, DecidableEq

/-- pq_push from src/priority_queue.c: append at the end, then sift up. -/
def pq_push (queue : PriorityQueue) (key : Rat) (value : Nat) : PriorityQueue :=
  ⟨pqSiftUp (queue.items ++ [⟨key, value⟩]) queue.items.length⟩

/-- The index selection of one sift-down iteration: the smaller-keyed of the
two children when it beats the current entry, else the current index. -/
def pqSmallest (items : List PQEntry) (count idx : Nat) : Nat :=
  let left := idx * 2 + 1
  let right := left + 1
  let s1 := if left < count ∧ (items.getD left defaultEntry).key <
      (items.getD idx defaultEntry).key then left else idx
  if right < count ∧ (items.getD right defaultEntry).key <
      (items.getD s1 defaultEntry).key then right else s1

/-- The sift-down loop of pq_pop, driven by fuel.  The index strictly
increases and stays below `count` at each iteration, so fuel equal to
`count` is never exhausted. -/
def pqSiftDownFuel : Nat → List PQEntry → Nat → Nat → List PQEntry
  | 0, items, _, _ => items
  | fuel + 1, items, count, idx =>
      if pqSmallest items count idx = idx then items
      else pqSiftDownFuel fuel (pqSwap items idx (pqSmallest items count idx))
        count (pqSmallest items count idx)

/-- The sift-down loop of pq_pop, on the array logically truncated to `count`
entries. -/
def pqSiftDown (items : List PQEntry) (count idx : Nat) : List PQEntry :=
  pqSiftDownFuel (count + 1) items count idx

/-- pq_pop from src/priority_queue.c: return the root entry, move the last
entry to the front, shrink by one and sift down. -/
def pq_pop (queue : PriorityQueue) : Option ((Rat × Nat) × PriorityQueue) :=
  match queue.items with
  | [] => none
  | top :: _ =>
      let n := queue.items.length
      let items1 := (queue.items.set 0 (queue.items.getD (n - 1) defaultEntry)).take (n - 1)
      some ((top.key, top.value), ⟨pqSiftDown items1 (n - 1) 0⟩)

/-- A positional read is an element of the list or the default entry. -/
theorem getD_mem_or_default (l : List PQEntry) (i : Nat) :
    l.getD i defaultEntry ∈ l ∨ l.getD i defaultEntry = defaultEntry := by
  by_cases h : i < l.length
  · left
    rw [List.getD_eq_getElem?_getD, List.getElem?_eq_getElem h]
    simp [List.getElem_mem h]
  · right
    rw [List.getD_eq_getElem?_getD, List.getElem?_eq_none (by omega)]
    rfl

/-- Swapping keeps every element an old element (or, out of range, the
default entry). -/
theorem mem_pqSwap (items : List PQEntry) (i j : Nat) (e : PQEntry)
    (he : e ∈ pqSwap items i j) : e ∈ items ∨ e = defaultEntry := by
  unfold pqSwap at he
  rcases List.mem_or_eq_of_mem_set he with h1 | h1
  · rcases List.mem_or_eq_of_mem_set h1 with h2 | h2
    · exact Or.inl h2
    · rcases getD_mem_or_default items j with h3 | h3
      · exact Or.inl (h2 ▸ h3)
      · exact Or.inr (h2 ▸ h3)
  · rcases getD_mem_or_default items i with h3 | h3
    · exact Or.inl (h1 ▸ h3)
    · exact Or.inr (h1 ▸ h3)

/-- Sift-up keeps every element an old element or the default entry. -/
theorem mem_pqSiftUpFuel : ∀ (fuel : Nat) (items : List PQEntry) (idx : Nat)
    (e : PQEntry), e ∈ pqSiftUpFuel fuel items idx →
      e ∈ items ∨ e = defaultEntry := by
  intro fuel
  induction fuel with
  | zero =>
      intro items idx e he
      exact Or.inl he
  | succ n ih =>
      intro items idx e he
      unfold pqSiftUpFuel at he
      split at he
      · exact Or.inl he
      · dsimp only at he
        split at he
        · exact Or.inl he
        · rcases ih _ _ e he with h1 | h1
          · rcases mem_pqSwap _ _ _ _ h1 with h2 | h2
            · exact Or.inl h2
            · exact Or.inr h2
          · exact Or.inr h1

/-- Sift-down keeps every element an old element or the default entry. -/
theorem mem_pqSiftDownFuel : ∀ (fuel : Nat) (items : List PQEntry)
    (count idx : Nat) (e : PQEntry), e ∈ pqSiftDownFuel fuel items count idx →
      e ∈ items ∨ e = defaultEntry := by
  intro fuel
  induction fuel with
  | zero =>
      intro items count idx e he
      exact Or.inl he
  | succ n ih =>
      intro items count idx e he
      unfold pqSiftDownFuel at he
      split at he
      · exact Or.inl he
      · rcases ih _ _ _ e he with h1 | h1
        · rcases mem_pqSwap _ _ _ _ h1 with h2 | h2
          · exact Or.inl h2
          · exact Or.inr h2
        · exact Or.inr h1

/-- The values surviving pq_push are the old values, the pushed value, or the
default. -/
theorem pq_push_mem (queue : PriorityQueue) (key : Rat) (value : Nat)
    (e : PQEntry) (he : e ∈ (pq_push queue key value).items) :
    e ∈ queue.items ∨ e = ⟨key, value⟩ ∨ e = defaultEntry := by
  unfold pq_push pqSiftUp at he
  rcases mem_pqSiftUpFuel _ _ _ _ he with h1 | h1
  · rcases List.mem_append.mp h1 with h2 | h2
    · exact Or.inl h2
    · exact Or.inr (Or.inl (List.mem_singleton.mp h2))
  · exact Or.inr (Or.inr h1)

/-- pq_pop returns a stored entry and keeps every surviving entry an old one
(or the default). -/
theorem pq_pop_mem (queue : PriorityQueue) (p : Rat × Nat)
    (q2 : PriorityQueue) (h : pq_pop queue = some (p, q2)) :
    (∃ e ∈ queue.items, p = (e.key, e.value)) ∧
    (∀ e ∈ q2.items, e ∈ queue.items ∨ e = defaultEntry) := by
  obtain ⟨items⟩ := queue
  cases items with
  | nil => exact absurd h (Option.noConfusion)
  | cons top rest =>
      unfold pq_pop at h
      dsimp only at h
      cases h
      refine ⟨⟨top, List.mem_cons_self top rest, rfl⟩, ?_⟩
      intro e he
      dsimp only at he
      unfold pqSiftDown at he
      rcases mem_pqSiftDownFuel _ _ _ _ e he with h1 | h1
      · have h2 := List.mem_of_mem_take h1
        rcases List.mem_or_eq_of_mem_set h2 with h3 | h3
        · exact Or.inl h3
        · rcases getD_mem_or_default (top :: rest) ((top :: rest).length - 1) with
            h4 | h4
          · exact Or.inl (h3 ▸ h4)
          · exact Or.inr (h3 ▸ h4)
      · exact Or.inr h1

/-! ## Sequential A* (src/parallel_a_star.c, sequential_a_star) -/

/-- Manhattan heuristic of src/parallel_a_star.c; the C routine computes it in
doubles and truncates to int at the call sites, which is exact on integer
inputs. -/
def heuristic (a b : GridCoord) : Int :=
  |a.x - b.x| + |a.y - b.y|

/-- state_index from src/parallel_a_star.c, in size_t arithmetic. -/
def state_index (grid : Grid) (time x y : Int) : Nat :=
  let plane := (sizeT grid.width * sizeT grid.height) % 2 ^ 64
  (sizeT time * plane + sizeT y * sizeT grid.width + sizeT x) % 2 ^ 64

/-- The horizon cap of sequential_a_star: `max(W·H·4, MAX_PATH_LENGTH)`,
with the negative-overflow guard of the source. -/
def computeMaxTime (grid : Grid) : Int :=
  let mt := grid.width * grid.height * 4
  if mt < 0 ∨ mt < 4096 then 4096 else mt

/-- The node a stray out-of-range C arena read would see; never read on the
reachable index ranges. -/
def defaultNode : AStarNode := ⟨⟨0, 0⟩, 0, 0, -1, 0⟩

/-- The mutable state of one sequential_a_star invocation: the arena, the
OPEN heap of (f, arena index) pairs, and the dense best-cost table (a total
map initialized to INT_MAX). -/
structure AStarLoopState where
  buffer : List AStarNode
  openQ : PriorityQueue
  best : Nat → Int

/-- Admission of a single generated neighbor (the inner loop body of
sequential_a_star): the neighbor is dropped when it exceeds the horizon,
indexes out of the best-cost table, or fails the dominance test; otherwise
the best-cost slot is improved and the child (with f = g + h and the
expanded node's arena index as parent) is appended to the arena and pushed
on OPEN. -/
def astarAdmit (grid : Grid) (goal : GridCoord) (max_time total : Int)
    (node_index : Nat) (acc : AStarLoopState) (nb : GridCoord × Int × Int) :
    AStarLoopState :=
  let pos := nb.1
  let gval := nb.2.1
  let tval := nb.2.2
  if tval ≥ max_time then acc
  else
    let idx := state_index grid tval pos.x pos.y
    if idx ≥ sizeT total then acc
    else if acc.best idx ≤ gval then acc
    else
      let h := heuristic pos goal
      let child : AStarNode := ⟨pos, gval, gval + h, (node_index : Int), tval⟩
      { buffer := acc.buffer ++ [child]
        openQ := pq_push acc.openQ ((gval + h : Int) : Rat) acc.buffer.length
        best := fun i => if i = idx then gval else acc.best i }

/-- The child-generation half of the A* loop body: every generated neighbor
of the expanded node is offered for admission in production order. -/
def astarExpand (grid : Grid) (constraints : ConstraintSet) (goal : GridCoord)
    (agent_id : Int) (max_time total : Int) (st : AStarLoopState)
    (node_index : Nat) : AStarLoopState :=
  (generate_neighbors grid constraints agent_id
      (st.buffer.getD node_index defaultNode)).foldl
    (astarAdmit grid goal max_time total node_index) st

/-- The main loop of sequential_a_star: stop on an empty OPEN or on the
queue-explosion bail-out; otherwise pop the best node, test the goal on pop,
else expand.  The loop is driven by explicit fuel; the theorems below hold
for every fuel, covering every terminating run of the C loop. -/
def astarLoop (grid : Grid) (constraints : ConstraintSet) (goal : GridCoord)
    (agent_id : Int) (max_time total plane : Int) :
    Nat → AStarLoopState → Option (Nat × AStarLoopState)
  | 0, _ => none
  | fuel + 1, st =>
      if st.openQ.items.length = 0 then none
      else if (st.openQ.items.length : Int) > plane * max_time then none
      else
        match pq_pop st.openQ with
        | none => none
        | some ((_, node_index), openQ2) =>
            let st1 : AStarLoopState := ⟨st.buffer, openQ2, st.best⟩
            if (st1.buffer.getD node_index defaultNode).position = goal then
              some (node_index, st1)
            else
              astarLoop grid constraints goal agent_id max_time total plane fuel
                (astarExpand grid constraints goal agent_id max_time total st1
                  node_index)

/-- The parent-chain walk of reconstruct_path: positions are written
back-to-front (the recursion builds the front part from the parent chain and
appends the current position).  The C loop stops early if the chain hits the
root before the output is full, leaving earlier slots uninitialized; that is
unreachable under the arena invariant and modelled by stopping. -/
def walkChain (buffer : List AStarNode) : Nat → Int → List GridCoord
  | 0, _ => []
  | steps + 1, idx =>
      if idx < 0 then []
      else
        walkChain buffer steps ((buffer.getD idx.toNat defaultNode).parent_index) ++
          [(buffer.getD idx.toNat defaultNode).position]

/-- reconstruct_path from src/parallel_a_star.c: an output of length
`t_goal + 1` filled by walking parent indices from the goal node. -/
def reconstruct_path (buffer : List AStarNode) (goal_index : Nat) : AgentPath :=
  walkChain buffer ((buffer.getD goal_index defaultNode).time + 1).toNat
    (goal_index : Int)

/-- sequential_a_star from src/parallel_a_star.c (fuel-driven loop): the root
is seeded at the start with g = 0 and t = 0, its best-cost slot set to 0, and
the search returns the reconstructed path together with the goal node.  The
logging, timing, and the allocation-failure path (out of scope) are elided. -/
def sequential_a_star (grid : Grid) (constraints : ConstraintSet)
    (start goal : GridCoord) (agent_id : Int) (fuel : Nat) :
    Option (AgentPath × AStarNode) :=
  let max_time := computeMaxTime grid
  let plane : Int := grid.width * grid.height
  let total : Int := max_time * plane
  let h0 := heuristic start goal
  let root : AStarNode := ⟨start, 0, h0, -1, 0⟩
  let st0 : AStarLoopState :=
    { buffer := [root]
      openQ := pq_push ⟨[]⟩ (h0 : Rat) 0
      best := fun i => if i = state_index grid 0 start.x start.y then 0
        else 2147483647 }
  match astarLoop grid constraints goal agent_id max_time total plane fuel st0 with
  | none => none
  | some (goal_index, st) =>
      some (reconstruct_path st.buffer goal_index,
        st.buffer.getD goal_index defaultNode)

/-! ## A* arena invariants -/

/-- Positional reads below the old length are unchanged by appending. -/
theorem getD_append_left_node (l l2 : List AStarNode) (i : Nat)
    (h : i < l.length) :
    (l ++ l2).getD i defaultNode = l.getD i defaultNode := by
  rw [List.getD_eq_getElem?_getD, List.getD_eq_getElem?_getD,
    List.getElem?_append_left h]

/-- The appended node sits at the old length. -/
theorem getD_append_self_node (l : List AStarNode) (a : AStarNode) :
    (l ++ [a]).getD l.length defaultNode = a := by
  rw [List.getD_eq_getElem?_getD, List.getElem?_concat_length]
  rfl

/-- The arena invariant of a sequential_a_star run from `start`: the root
sits at index 0 with g = 0 and t = 0, and every later node has a parent at a
strictly smaller index, a time one past its parent's, and g equal to its
time (every move costs 1 and the search starts at t = 0). -/
def BufInv (start : GridCoord) (buffer : List AStarNode) : Prop :=
  0 < buffer.length ∧
  (buffer.getD 0 defaultNode).position = start ∧
  (buffer.getD 0 defaultNode).g_cost = 0 ∧
  (buffer.getD 0 defaultNode).time = 0 ∧
  ∀ i : Nat, 1 ≤ i → i < buffer.length →
    0 ≤ (buffer.getD i defaultNode).parent_index ∧
    (buffer.getD i defaultNode).parent_index < (i : Int) ∧
    (buffer.getD i defaultNode).time =
      (buffer.getD (buffer.getD i defaultNode).parent_index.toNat
        defaultNode).time + 1 ∧
    (buffer.getD i defaultNode).g_cost = (buffer.getD i defaultNode).time

/-- Under the arena invariant every node has a nonnegative time and g equal
to its time. -/
theorem bufInv_fields (start : GridCoord) (buffer : List AStarNode)
    (hinv : BufInv start buffer) :
    ∀ i : Nat, i < buffer.length →
      0 ≤ (buffer.getD i defaultNode).time ∧
      (buffer.getD i defaultNode).g_cost = (buffer.getD i defaultNode).time := by
  intro i
  induction i using Nat.strong_induction_on with
  | _ i ih =>
      intro hi
      rcases Nat.eq_zero_or_pos i with h0 | h1
      · subst h0
        refine ⟨by rw [hinv.2.2.2.1], ?_⟩
        rw [hinv.2.2.1, hinv.2.2.2.1]
      · obtain ⟨hp0, hpi, ht, hg⟩ := hinv.2.2.2.2 i h1 hi
        have hplt : (buffer.getD i defaultNode).parent_index.toNat < i := by omega
        have hpar := ih _ hplt (lt_trans hplt hi)
        exact ⟨by omega, hg⟩

/-- One unfolding step of the chain walk. -/
theorem walkChain_succ (buffer : List AStarNode) (steps : Nat) (idx : Int) :
    walkChain buffer (steps + 1) idx =
      if idx < 0 then []
      else walkChain buffer steps
          ((buffer.getD idx.toNat defaultNode).parent_index) ++
        [(buffer.getD idx.toNat defaultNode).position] := rfl

/-- Under the arena invariant, the chain walk from a node produces a path of
length time + 1 that starts at the search's start cell and ends at the
node's own position. -/
theorem walkChain_spec (start : GridCoord) (buffer : List AStarNode)
    (hinv : BufInv start buffer) :
    ∀ idx : Nat, idx < buffer.length →
      (walkChain buffer ((buffer.getD idx defaultNode).time + 1).toNat
          (idx : Int)).length = ((buffer.getD idx defaultNode).time + 1).toNat ∧
      (walkChain buffer ((buffer.getD idx defaultNode).time + 1).toNat
          (idx : Int)).head? = some start ∧
      (walkChain buffer ((buffer.getD idx defaultNode).time + 1).toNat
          (idx : Int)).getLast? = some (buffer.getD idx defaultNode).position := by
  intro idx
  induction idx using Nat.strong_induction_on with
  | _ idx ih =>
      intro hidx
      rcases Nat.eq_zero_or_pos idx with h0 | h1
      · subst h0
        have hsteps : ((buffer.getD 0 defaultNode).time + 1).toNat = 0 + 1 := by
          rw [hinv.2.2.2.1]
          decide
        rw [hsteps, walkChain_succ]
        rw [if_neg (by norm_num)]
        simp only [Int.toNat_natCast, Int.toNat_zero, Nat.cast_zero, walkChain,
          List.nil_append, List.length_singleton, List.head?_cons,
          List.getLast?_singleton]
        refine ⟨by norm_num, ?_, by norm_num⟩
        rw [hinv.2.1]
      · obtain ⟨hp0, hpi, ht, hg⟩ := hinv.2.2.2.2 idx h1 hidx
        have hplt : (buffer.getD idx defaultNode).parent_index.toNat < idx := by
          omega
        have hpar := bufInv_fields start buffer hinv
          (buffer.getD idx defaultNode).parent_index.toNat (lt_trans hplt hidx)
        have hsteps : ((buffer.getD idx defaultNode).time + 1).toNat =
            ((buffer.getD (buffer.getD idx defaultNode).parent_index.toNat
              defaultNode).time + 1).toNat + 1 := by
          omega
        rw [hsteps, walkChain_succ, if_neg (by omega)]
        rw [show ((idx : Int)).toNat = idx from by omega]
        have hback : (((buffer.getD idx defaultNode).parent_index.toNat : Nat) :
            Int) = (buffer.getD idx defaultNode).parent_index := by
          omega
        obtain ⟨ihl, ihh, ihla⟩ := ih _ hplt (lt_trans hplt hidx)
        rw [hback] at ihl ihh ihla
        refine ⟨?_, ?_, ?_⟩
        · rw [List.length_append, ihl]
          simp
        · rw [List.head?_append, ihh]
          rfl
        · rw [List.getLast?_concat]

/-- The OPEN heap stores only valid arena indices. -/
def HeapBound (st : AStarLoopState) : Prop :=
  ∀ e ∈ st.openQ.items, e.value < st.buffer.length

/-- Every generated neighbor carries g + 1 and t + 1 of the expanded node. -/
theorem generate_neighbors_fields (grid : Grid) (constraints : ConstraintSet)
    (agent_id : Int) (node : AStarNode) :
    ∀ nb ∈ generate_neighbors grid constraints agent_id node,
      nb.2.1 = node.g_cost + 1 ∧ nb.2.2 = node.time + 1 := by
  unfold generate_neighbors
  generalize neighborMoves = ms
  induction ms with
  | nil => simp
  | cons m rest ih =>
      simp only [List.foldr_cons]
      intro nb hnb
      split_ifs at hnb
      all_goals try exact ih nb hnb
      all_goals
        rcases List.mem_cons.mp hnb with h | h
        · subst h
          exact ⟨rfl, rfl⟩
        · exact ih nb h

/-- One admission step preserves the arena invariant, the heap bound, the
validity of the expanded node's index, and the expanded node's slot. -/
theorem astarAdmit_inv (grid : Grid) (goal : GridCoord) (max_time total : Int)
    (node_index : Nat) (start : GridCoord) (node0 : AStarNode)
    (acc : AStarLoopState) (nb : GridCoord × Int × Int)
    (hb : BufInv start acc.buffer) (hh : HeapBound acc)
    (hni : node_index < acc.buffer.length)
    (hslot : acc.buffer.getD node_index defaultNode = node0)
    (hgt : node0.g_cost = node0.time)
    (hg : nb.2.1 = node0.g_cost + 1) (ht : nb.2.2 = node0.time + 1) :
    BufInv start (astarAdmit grid goal max_time total node_index acc nb).buffer ∧
    HeapBound (astarAdmit grid goal max_time total node_index acc nb) ∧
    node_index <
      (astarAdmit grid goal max_time total node_index acc nb).buffer.length ∧
    (astarAdmit grid goal max_time total node_index acc nb).buffer.getD
      node_index defaultNode = node0 := by
  unfold astarAdmit
  dsimp only
  split_ifs with hc1 hc2 hc3
  · exact ⟨hb, hh, hni, hslot⟩
  · exact ⟨hb, hh, hni, hslot⟩
  · exact ⟨hb, hh, hni, hslot⟩
  · obtain ⟨hlen, hroot1, hroot2, hroot3, hrest⟩ := hb
    refine ⟨⟨?_, ?_, ?_, ?_, ?_⟩, ?_, ?_, ?_⟩
    · simp only [List.length_append, List.length_singleton]
      omega
    · rw [getD_append_left_node _ _ 0 hlen]
      exact hroot1
    · rw [getD_append_left_node _ _ 0 hlen]
      exact hroot2
    · rw [getD_append_left_node _ _ 0 hlen]
      exact hroot3
    · intro i h1 hi
      simp only [List.length_append, List.length_singleton] at hi
      rcases Nat.lt_or_ge i acc.buffer.length with hle | hge
      · obtain ⟨q1, q2, q3, q4⟩ := hrest i h1 hle
        have hpar : (acc.buffer.getD i defaultNode).parent_index.toNat <
            acc.buffer.length := by omega
        rw [getD_append_left_node _ _ i hle, getD_append_left_node _ _ _ hpar]
        exact ⟨q1, q2, q3, q4⟩
      · have hieq : i = acc.buffer.length := by omega
        subst hieq
        rw [getD_append_self_node]
        dsimp only
        have hnipar : ((node_index : Int)).toNat = node_index := by omega
        refine ⟨by omega, by exact_mod_cast hni, ?_, ?_⟩
        · rw [hnipar, getD_append_left_node _ _ node_index hni, hslot]
          exact ht
        · rw [hg, ht, hgt]
    · intro e he
      simp only [List.length_append, List.length_singleton]
      rcases pq_push_mem _ _ _ e he with h1 | h1 | h1
      · have := hh e h1
        omega
      · rw [h1]
        dsimp only
        omega
      · rw [h1]
        dsimp only [defaultEntry]
        omega
    · simp only [List.length_append, List.length_singleton]
      omega
    · rw [getD_append_left_node _ _ node_index hni]
      exact hslot

/-- Folding admission over any neighbor list carrying the expanded node's
g + 1 and t + 1 preserves the arena invariant and the heap bound. -/
theorem astarExpand_fold (grid : Grid) (goal : GridCoord)
    (max_time total : Int) (node_index : Nat) (start : GridCoord)
    (node0 : AStarNode) (hgt : node0.g_cost = node0.time) :
    ∀ (l : List (GridCoord × Int × Int)),
      (∀ nb ∈ l, nb.2.1 = node0.g_cost + 1 ∧ nb.2.2 = node0.time + 1) →
      ∀ acc : AStarLoopState, BufInv start acc.buffer → HeapBound acc →
        node_index < acc.buffer.length →
        acc.buffer.getD node_index defaultNode = node0 →
        BufInv start
          (l.foldl (astarAdmit grid goal max_time total node_index) acc).buffer ∧
        HeapBound
          (l.foldl (astarAdmit grid goal max_time total node_index) acc) := by
  intro l
  induction l with
  | nil =>
      intro _ acc hb hh _ _
      exact ⟨hb, hh⟩
  | cons nb rest ih =>
      intro hfields acc hb hh hni hslot
      rw [List.foldl_cons]
      obtain ⟨hg, ht⟩ := hfields nb (List.mem_cons_self nb rest)
      obtain ⟨hb2, hh2, hni2, hslot2⟩ := astarAdmit_inv grid goal max_time total
        node_index start node0 acc nb hb hh hni hslot hgt hg ht
      exact ih (fun x hx => hfields x (List.mem_cons_of_mem nb hx))
        _ hb2 hh2 hni2 hslot2

/-- Expansion preserves the arena invariant and the heap bound. -/
theorem astarExpand_inv (grid : Grid) (constraints : ConstraintSet)
    (goal : GridCoord) (agent_id : Int) (max_time total : Int)
    (start : GridCoord) (st : AStarLoopState) (node_index : Nat)
    (hb : BufInv start st.buffer) (hh : HeapBound st)
    (hni : node_index < st.buffer.length) :
    BufInv start (astarExpand grid constraints goal agent_id max_time total
      st node_index).buffer ∧
    HeapBound (astarExpand grid constraints goal agent_id max_time total
      st node_index) := by
  unfold astarExpand
  exact astarExpand_fold grid goal max_time total node_index start
    (st.buffer.getD node_index defaultNode)
    (bufInv_fields start st.buffer hb node_index hni).2
    _ (generate_neighbors_fields grid constraints agent_id _)
    st hb hh hni rfl

/-- Along any terminating success of the A* loop the invariants persist and
the returned index is a valid arena index of a node sitting on the goal. -/
theorem astarLoop_inv (grid : Grid) (constraints : ConstraintSet)
    (goal : GridCoord) (agent_id : Int) (max_time total plane : Int)
    (start : GridCoord) :
    ∀ (fuel : Nat) (st : AStarLoopState), BufInv start st.buffer →
      HeapBound st →
      ∀ gi st2, astarLoop grid constraints goal agent_id max_time total plane
          fuel st = some (gi, st2) →
        BufInv start st2.buffer ∧ gi < st2.buffer.length ∧
        (st2.buffer.getD gi defaultNode).position = goal := by
  intro fuel
  induction fuel with
  | zero =>
      intro st _ _ gi st2 h
      exact absurd h (Option.noConfusion)
  | succ n ih =>
      intro st hb hh gi st2 h
      unfold astarLoop at h
      split at h
      · exact absurd h (Option.noConfusion)
      · split at h
        · exact absurd h (Option.noConfusion)
        · cases hpop : pq_pop st.openQ with
          | none =>
              rw [hpop] at h
              exact absurd h (Option.noConfusion)
          | some pr =>
              obtain ⟨⟨k, ni⟩, q2⟩ := pr
              rw [hpop] at h
              dsimp only at h
              obtain ⟨⟨e, hemem, hpe⟩, hsub⟩ := pq_pop_mem st.openQ (k, ni) q2 hpop
              have hni : ni < st.buffer.length := by
                have hval := hh e hemem
                have : ni = e.value := congrArg Prod.snd hpe
                omega
              have hh2 : HeapBound ⟨st.buffer, q2, st.best⟩ := by
                intro e2 he2
                rcases hsub e2 he2 with h1 | h1
                · exact hh e2 h1
                · rw [h1]
                  simpa [defaultEntry] using hb.1
              split at h
              · cases h
                exact ⟨hb, hni, by assumption⟩
              · obtain ⟨hb3, hh3⟩ := astarExpand_inv grid constraints goal
                  agent_id max_time total start ⟨st.buffer, q2, st.best⟩ ni
                  hb hh2 hni
                exact ih _ hb3 hh3 gi st2 h

/-! ## Claim C5 — sequential A* path shape -/

/-- C5: whenever sequential A* succeeds, the output path has length equal to
the goal node's time plus one, its first element is the start cell, its last
element is the goal cell, and the goal node's g_cost equals the path length
minus one (every move, wait included, costs exactly 1). -/
theorem sequential_a_star_spec (grid : Grid) (constraints : ConstraintSet)
    (start goal : GridCoord) (agent_id : Int) (fuel : Nat) (path : AgentPath)
    (gnode : AStarNode)
    (h : sequential_a_star grid constraints start goal agent_id fuel =
      some (path, gnode)) :
    (path.length : Int) = gnode.time + 1 ∧
    path.head? = some start ∧
    path.getLast? = some goal ∧
    gnode.g_cost = (path.length : Int) - 1 := by
  unfold sequential_a_star at h
  dsimp only at h
  cases hrun : astarLoop grid constraints goal agent_id (computeMaxTime grid)
      (computeMaxTime grid * (grid.width * grid.height))
      (grid.width * grid.height) fuel
      ⟨[⟨start, 0, heuristic start goal, -1, 0⟩],
        pq_push ⟨[]⟩ ((heuristic start goal : Int) : Rat) 0,
        fun i => if i = state_index grid 0 start.x start.y then 0
          else 2147483647⟩ with
  | none =>
      rw [hrun] at h
      exact absurd h (Option.noConfusion)
  | some pr =>
      obtain ⟨gi, st⟩ := pr
      rw [hrun] at h
      dsimp only at h
      cases h
      have hbuf0 : BufInv start [(⟨start, 0, heuristic start goal, -1, 0⟩ :
          AStarNode)] := by
        refine ⟨by norm_num, rfl, rfl, rfl, ?_⟩
        intro i h1 hi
        simp only [List.length_singleton] at hi
        omega
      have hheap0 : HeapBound ⟨[⟨start, 0, heuristic start goal, -1, 0⟩],
          pq_push ⟨[]⟩ ((heuristic start goal : Int) : Rat) 0,
          fun i => if i = state_index grid 0 start.x start.y then 0
            else 2147483647⟩ := by
        intro e he
        have hq0 : (pq_push ⟨[]⟩ ((heuristic start goal : Int) : Rat) 0).items =
            [⟨((heuristic start goal : Int) : Rat), 0⟩] := by
          unfold pq_push pqSiftUp pqSiftUpFuel
          simp
        rw [hq0] at he
        rcases List.mem_singleton.mp he with rfl
        norm_num
      obtain ⟨hbst, hgi, hpos⟩ := astarLoop_inv grid constraints goal agent_id
        (computeMaxTime grid) (computeMaxTime grid * (grid.width * grid.height))
        (grid.width * grid.height) start fuel _ hbuf0 hheap0 gi st hrun
      obtain ⟨hl, hhd, hla⟩ := walkChain_spec start st.buffer hbst gi hgi
      have hfields := bufInv_fields start st.buffer hbst gi hgi
      unfold reconstruct_path
      refine ⟨?_, hhd, ?_, ?_⟩
      · rw [hl]
        omega
      · rw [hla, hpos]
      · rw [hl]
        omega

/-- Witness for C5: A* on a free 1×1 grid with start = goal succeeds with the
single-cell path. -/
theorem sequential_a_star_spec_witness :
    ∃ p gn, sequential_a_star ⟨1, 1, [0]⟩ [] ⟨0, 0⟩ ⟨0, 0⟩ 0 3 =
      some (p, gn) ∧ p.getLast? = some ⟨0, 0⟩ := by
  have hrun : sequential_a_star ⟨1, 1, [0]⟩ [] ⟨0, 0⟩ ⟨0, 0⟩ 0 3 =
      some ([⟨0, 0⟩], ⟨⟨0, 0⟩, 0, 0, -1, 0⟩) := by decide
  exact ⟨_, _, hrun, (sequential_a_star_spec _ _ _ _ _ _ _ _ hrun).2.2.1⟩

end ParallelCBS
